import Mathlib

/-!
Verification of the gap-analysis core in `src/utils.py` of
sreinke-dejak/semrush-insights-prototype.

The embedding models a pandas `DataFrame` as an ordered association list of
named columns, each an ordered list of cells.  A cell is a string, an
integer, or missing (`NaN`).  This covers every value the pipeline reads:
`pd.to_numeric(..., errors="coerce").fillna(d).astype(int)` is modelled by a
decimal parser (optional sign, digits, optional fractional part that
`astype(int)` truncates away) falling back to the default, and
`.astype(str)` by rendering (a missing value renders as "nan", the string
`str(np.nan)` pandas produces).  Exponent-notation numerals and non-ASCII
case mapping are outside the model; no claim depends on them.

Exceptions are modelled by `Option`: `_normalize_columns` raises
`IndexError` on a zero-column frame (`df.columns[0]`), so it returns `none`
exactly there.  Frames whose trimmed-and-lowercased column names collide
make pandas raise inside `pd.to_numeric` (a duplicate-label selection is a
DataFrame); theorems about column contents therefore carry a `Nodup`
hypothesis marking that fidelity domain.

Python's multi-key `sort_values` (line 62) is a stable lexicographic sort
(`np.lexsort`), modelled by `List.insertionSort` with the lexicographic
preorder: a stable sort is determined uniquely by its comparison, so the
model is exact.  The single-key `sort_values("volume", ...)` at line 110
uses numpy's default `kind='quicksort'`, which is NOT stable; the model
uses the stable sort, which coincides with numpy's behaviour up to its
16-element insertion-sort cutoff and on tie-free keys (see claim C3).
-/

/-- A pandas cell: a string, an int64, or missing (`NaN`). -/
inductive Cell where
  | str (s : String)
  | int (n : Int)
  | na
deriving DecidableEq, Repr

/-- Python `str(value)`, as `.astype(str)` applies it per cell:
`str` of a string is itself, of an int its decimal form, of `NaN` "nan". -/
def cellToStr : Cell → String
  | .str s => s
  | .int n => toString n
  | .na => "nan"

/-- Strip leading and trailing whitespace (Python `str.strip`). -/
def trimChars (cs : List Char) : List Char :=
  ((cs.dropWhile Char.isWhitespace).reverse.dropWhile Char.isWhitespace).reverse

/-- Python `str.lower()` (ASCII case mapping; see the header note). -/
def strLower (s : String) : String :=
  ⟨s.data.map Char.toLower⟩

/-- Digits-only check for the decimal parser. -/
def isDigits (cs : List Char) : Bool :=
  cs.all (fun c => c.isDigit)

/-- Value of a digit list, most significant first. -/
def digitsVal (cs : List Char) : Nat :=
  cs.foldl (fun a c => a * 10 + (c.toNat - 48)) 0

/-- Magnitude of an unsigned decimal numeral, truncating any fractional
part toward zero (that is what `astype(int)` does to the parsed float).
`none` when the text is not a plain decimal numeral. -/
def parseDecCore (cs : List Char) : Option Nat :=
  match cs.span (fun c => c ≠ '.') with
  | (intp, []) =>
      if intp.isEmpty then none
      else if isDigits intp then some (digitsVal intp) else none
  | (intp, _ :: frac) =>
      if frac.contains '.' then none
      else if intp.isEmpty && frac.isEmpty then none
      else if isDigits intp && isDigits frac then some (digitsVal intp) else none

/-- `pd.to_numeric(errors="coerce")` on a string followed by `astype(int)`:
optional sign, decimal numeral, truncation toward zero; `none` when
unparsable (the coerced `NaN`). -/
def parseDecimal (s : String) : Option Int :=
  match s.toList with
  | '-' :: cs => (parseDecCore cs).map (fun n => -(n : Int))
  | '+' :: cs => (parseDecCore cs).map (fun n => (n : Int))
  | cs => (parseDecCore cs).map (fun n => (n : Int))

/-- `pd.to_numeric(errors="coerce")` on one cell: ints pass through,
strings parse (whitespace stripped, as pandas does), `NaN` stays missing. -/
def parseCellNum : Cell → Option Int
  | .int n => some n
  | .na => none
  | .str s => parseDecimal ⟨trimChars s.data⟩

/-- `pd.to_numeric(errors="coerce").fillna(d).astype(int)` on one cell. -/
def coerceNum (d : Int) (c : Cell) : Int :=
  (parseCellNum c).getD d

/-- A pandas DataFrame: ordered named columns of cells.  pandas frames are
rectangular; raggedness is representable here but never produced by the
model's constructors. -/
structure DataFrame where
  cols : List (String × List Cell)
deriving DecidableEq, Repr

/-- `df.columns`, in order. -/
def DataFrame.names (df : DataFrame) : List String :=
  df.cols.map Prod.fst

/-- `len(df)`: the length of the first column (0 for a column-less frame). -/
def DataFrame.nrows (df : DataFrame) : Nat :=
  match df.cols with
  | [] => 0
  | c :: _ => c.2.length

/-- `name in df.columns`. -/
def DataFrame.hasCol (df : DataFrame) (n : String) : Bool :=
  df.names.contains n

/-- `df[n]`: the first column labelled `n` (pandas raises on a duplicate
label at the points this model is used; theorems carry `Nodup`). -/
def DataFrame.getCol (df : DataFrame) (n : String) : List Cell :=
  match df.cols.find? (fun p => p.1 == n) with
  | some p => p.2
  | none => []

/-- Cell `i` of column `n`, `NaN` when out of range. -/
def DataFrame.getCell (df : DataFrame) (n : String) (i : Nat) : Cell :=
  (df.getCol n).getD i .na

/-- `df.rename(columns={old: new})`: renames every column labelled `old`. -/
def DataFrame.renameCol (df : DataFrame) (old new : String) : DataFrame :=
  ⟨df.cols.map (fun p => if p.1 == old then (new, p.2) else p)⟩

/-- `df[n] = scalar` for an `n` not yet present: appends a constant column. -/
def DataFrame.setConstCol (df : DataFrame) (n : String) (c : Cell) : DataFrame :=
  ⟨df.cols ++ [(n, List.replicate df.nrows c)]⟩

/-- `df[n] = f(df[n])` elementwise, in place (label order kept). -/
def DataFrame.mapCol (df : DataFrame) (n : String) (f : Cell → Cell) : DataFrame :=
  ⟨df.cols.map (fun p => if p.1 == n then (p.1, p.2.map f) else p)⟩

/-- `[c.strip().lower() for c in df.columns]` applied to one label. -/
def lowerName (s : String) : String :=
  strLower ⟨trimChars s.data⟩

/-- utils.py line 6: trim and lowercase every column label. -/
def lowerFrame (df : DataFrame) : DataFrame :=
  ⟨df.cols.map (fun p => (lowerName p.1, p.2))⟩

/-- utils.py lines 10-12: keep an existing "keyword" column, otherwise
rename the first column to "keyword"; `df.columns[0]` raises on a
zero-column frame, modelled as `none`. -/
def keywordResolve (df : DataFrame) : Option DataFrame :=
  if df.hasCol "keyword" then some df
  else
    match df.names with
    | [] => none
    | n :: _ => some (df.renameCol n "keyword")

/-- utils.py line 17: volume aliases tried in order. -/
def volumeAliases : List String :=
  ["vol", "search_volume", "search volume", "monthly_volume"]

/-- utils.py line 26: position aliases tried in order. -/
def positionAliases : List String :=
  ["pos", "rank"]

/-- The alias loop (lines 15-20 and 25-29): if the canonical label is
absent, rename the first present alias to it (`break` after the first). -/
def resolveAlias (df : DataFrame) (canon : String) (alts : List String) : DataFrame :=
  if df.hasCol canon then df
  else
    match alts.find? (fun a => df.hasCol a) with
    | some a => df.renameCol a canon
    | none => df

/-- Lines 21-22, 30-31, 34-37: default column when still absent. -/
def ensureCol (df : DataFrame) (n : String) (c : Cell) : DataFrame :=
  if df.hasCol n then df else df.setConstCol n c

/-- The coercions of lines 40-42 applied to a frame that already has the
keyword, volume and position columns. -/
def coerceFrame (df : DataFrame) : DataFrame :=
  ((df.mapCol "keyword" (fun c => .str (cellToStr c))).mapCol
      "volume" (fun c => .int (coerceNum 0 c))).mapCol
    "position" (fun c => .int (coerceNum 999 c))

/-- Lines 14-37 in source order: resolve the volume column then default
it, resolve the position column then default it, default url and domain. -/
def fillDefaults (df : DataFrame) : DataFrame :=
  ensureCol
    (ensureCol
      (ensureCol
        (resolveAlias
          (ensureCol (resolveAlias df "volume" volumeAliases) "volume" (.int 0))
          "position" positionAliases)
        "position" (.int 999))
      "url" (.str ""))
    "domain" (.str "")

/-- `_normalize_columns` (utils.py lines 4-44).  `none` exactly when the
input frame has no columns (the `IndexError` of line 12). -/
def _normalize_columns (df0 : DataFrame) : Option DataFrame :=
  (keywordResolve (lowerFrame df0)).map (fun df => coerceFrame (fillDefaults df))

/-- One record of `to_dict(orient="records")` after normalization: exactly
the five canonical fields of utils.py line 64. -/
structure Record where
  keyword : String
  volume : Int
  position : Int
  url : Cell
  domain : Cell
deriving DecidableEq, Repr

/-- Integer value of a coerced cell (the normalizer guarantees `.int`). -/
def cellAsInt : Cell → Int
  | .int n => n
  | _ => 0

/-- Row `i` of the normalized frame projected to the five canonical
fields (utils.py line 64). -/
def DataFrame.recordOfRow (df : DataFrame) (i : Nat) : Record :=
  { keyword := cellToStr (df.getCell "keyword" i)
    volume := cellAsInt (df.getCell "volume" i)
    position := cellAsInt (df.getCell "position" i)
    url := df.getCell "url" i
    domain := df.getCell "domain" i }

/-- `to_dict(orient="records")` of the projected frame. -/
def DataFrame.toRecords (df : DataFrame) : List Record :=
  (List.range df.nrows).map df.recordOfRow

/-- The gap filter of utils.py line 61:
`volume >= min_volume and position > gap_position_threshold`. -/
def gapCandidates (ndf : DataFrame) (min_volume gap_position_threshold : Int) : List Record :=
  ndf.toRecords.filter
    (fun r => decide (min_volume ≤ r.volume) && decide (gap_position_threshold < r.position))

/-- The sort key of utils.py line 62: volume descending, then position
ascending; `a` may stand before `b` exactly when this holds. -/
def gapRel (a b : Record) : Prop :=
  b.volume < a.volume ∨ (a.volume = b.volume ∧ a.position ≤ b.position)

instance : DecidableRel gapRel := fun a b => by
  unfold gapRel; exact inferInstance

instance : IsTotal Record gapRel :=
  ⟨by intro a b; unfold gapRel; omega⟩

instance : IsTrans Record gapRel :=
  ⟨by intro a b c; unfold gapRel; omega⟩

/-- `run_gap_analysis` (utils.py lines 47-64): normalize, filter, stable
lexicographic sort (volume descending, position ascending), first `top_n`.
`none` exactly when `_normalize_columns` raises. -/
def run_gap_analysis (df : DataFrame) (min_volume gap_position_threshold : Int)
    (top_n : Nat) : Option (List Record) :=
  (_normalize_columns df).map (fun ndf =>
    (List.insertionSort gapRel (gapCandidates ndf min_volume gap_position_threshold)).take top_n)

/-- Python's substring test `tok in hay`: some position of `hay` starts
with `tok` (the empty token always matches). -/
def strContains (hay tok : String) : Bool :=
  (List.range (hay.length + 1)).any
    (fun i => (hay.toList.drop i).take tok.toList.length == tok.toList)

/-- The theme table of utils.py lines 89-96, in dict insertion order. -/
def themesList : List (String × List String) :=
  [("cost_coverage", ["cost", "price", "coverage", "insurance", "benefits"]),
   ("comparisons", ["vs", "versus", "compare", "best"]),
   ("how_to", ["how", "timeline", "steps", "process"]),
   ("local", ["near me", "clinic", "doctor", "center"]),
   ("eligibility", ["qualify", "requirements", "eligible", "who can"]),
   ("success_rates", ["success", "rate", "chances", "age"])]

/-- `any(t in low for t in tokens)`. -/
def kwMatchesTokens (tokens : List String) (low : String) : Bool :=
  tokens.any (fun t => strContains low t)

/-- One pass of the inner loop of lines 101-103: bump every theme whose
token list matches the lowercased keyword. -/
def themeHitsStep (low : String) (st : List ((String × List String) × Nat)) :
    List ((String × List String) × Nat) :=
  st.map (fun p => if kwMatchesTokens p.1.2 low then (p.1, p.2 + 1) else p)

/-- `theme_hits` (lines 98-103): fold the keywords over the zero-initialised
counter dict, keeping the dict's insertion order. -/
def theme_hits (kws : List String) : List (String × Nat) :=
  (kws.foldl (fun st kw => themeHitsStep (strLower kw) st)
      (themesList.map (fun t => (t, 0)))).map (fun p => (p.1.1, p.2))

/-- The comparison of `sorted(theme_hits.items(), key=count, reverse=True)`:
stable descending order by count. -/
def themeRel (a b : String × Nat) : Prop :=
  b.2 ≤ a.2

instance : DecidableRel themeRel := fun a b => by
  unfold themeRel; exact inferInstance

instance : IsTotal (String × Nat) themeRel :=
  ⟨by intro a b; unfold themeRel; omega⟩

instance : IsTrans (String × Nat) themeRel :=
  ⟨by intro a b c; unfold themeRel; omega⟩

/-- `top_themes` (lines 106-107): stable sort descending by count, keep the
names with positive count, first three. -/
def top_themes (kws : List String) : List String :=
  (((List.insertionSort themeRel (theme_hits kws)).filter
      (fun p => decide (0 < p.2))).map Prod.fst).take 3

/-- Token list of a named theme (names of `themesList` are distinct). -/
def themeTokens (t : String) : List String :=
  match themesList.find? (fun p => p.1 == t) with
  | some p => p.2
  | none => []

/-- How many keywords of `kws` match theme `t`: the specification-side
per-theme count that `theme_hits` is proved to compute. -/
def themeCount (kws : List String) (t : String) : Nat :=
  kws.countP (fun kw => kwMatchesTokens (themeTokens t) (strLower kw))

/-- Position of a theme name in the fixed enumeration. -/
def themeIdx (t : String) : Nat :=
  (themesList.map Prod.fst).indexOf t

/-- The six asset-type labels of `_suggest_asset_type`. -/
def assetCost : String := "Cost/Coverage hub page + FAQ"

def assetCompare : String := "Comparison page"

def assetHowTo : String := "How-to / Timeline guide"

def assetSuccess : String := "Success rates explainer (medically reviewed)"

def assetLocal : String := "Local intent support page + FAQs"

def assetDefault : String := "Educational pillar page + supporting FAQs"

/-- `_suggest_asset_type` (utils.py lines 161-173): first matching rule of
the fixed chain wins, else the educational default. -/
def _suggest_asset_type (keyword : String) : String :=
  let k := strLower keyword
  if kwMatchesTokens ["cost", "price", "coverage", "insurance"] k then assetCost
  else if kwMatchesTokens ["vs", "versus", "compare", "best"] k then assetCompare
  else if kwMatchesTokens ["how", "timeline", "steps", "process"] k then assetHowTo
  else if kwMatchesTokens ["success", "rate", "chances", "age"] k then assetSuccess
  else if kwMatchesTokens ["near me", "clinic", "doctor", "center"] k then assetLocal
  else assetDefault

/-- The same rules as an ordered table, written from the claim: token set
and label, checked top to bottom. -/
def assetRules : List (List String × String) :=
  [(["cost", "price", "coverage", "insurance"], assetCost),
   (["vs", "versus", "compare", "best"], assetCompare),
   (["how", "timeline", "steps", "process"], assetHowTo),
   (["success", "rate", "chances", "age"], assetSuccess),
   (["near me", "clinic", "doctor", "center"], assetLocal)]

/-- First-matching-rule evaluation of `assetRules`, written from the claim:
the label of the first rule whose token set matches, else the default. -/
def firstMatchAsset (keyword : String) : String :=
  match assetRules.find? (fun p => kwMatchesTokens p.1 (strLower keyword)) with
  | some p => p.2
  | none => assetDefault

/-- Round a rational to the nearest integer, ties to even: the rounding
IEEE 754 binary64 arithmetic applies to the scaled significand. -/
def roundHE (q : ℚ) : ℤ :=
  let f := ⌊q⌋
  let r := q - f
  if r < 1 / 2 then f
  else if 1 / 2 < r then f + 1
  else if f % 2 = 0 then f else f + 1

/-- Smallest `e ≤ fuel` with `2 ^ 52 ≤ q * 2 ^ e` (0 when fuel runs out):
the scaling exponent of a positive subcritical double. -/
def eUpAux : Nat → ℚ → Nat
  | 0, _ => 0
  | fuel + 1, q => if 2 ^ 52 ≤ q then 0 else eUpAux fuel (2 * q) + 1

def eUp (q : ℚ) : Nat :=
  eUpAux 200 q

/-- Smallest `e ≤ fuel` with `q / 2 ^ e < 2 ^ 53`. -/
def eDownAux : Nat → ℚ → Nat
  | 0, _ => 0
  | fuel + 1, q => if q < 2 ^ 53 then 0 else eDownAux fuel (q / 2) + 1

def eDown (q : ℚ) : Nat :=
  eDownAux 200 q

/-- Nearest binary64 value of a positive rational: scale into the 53-bit
significand range `[2^52, 2^53)`, round half-to-even, scale back.  Exact
for all magnitudes this development evaluates (between `2^-60` and
`2^253`); overflow and subnormals are out of reach of those inputs. -/
def roundPosDouble (q : ℚ) : ℚ :=
  if q < 2 ^ 52 then ((roundHE (q * 2 ^ eUp q) : ℚ)) / 2 ^ eUp q
  else ((roundHE (q / 2 ^ eDown q) : ℚ)) * 2 ^ eDown q

/-- Nearest binary64 value of a rational (sign-symmetric, 0 exact). -/
def roundDouble (q : ℚ) : ℚ :=
  if q = 0 then 0
  else if 0 < q then roundPosDouble q
  else -(roundPosDouble (-q))

/-- The exact rational value of the double literal `0.05`. -/
def float05 : ℚ :=
  3602879701896397 / 2 ^ 56

/-- CPython `int * float`: the int is converted to the nearest double,
then the IEEE product is the correctly rounded exact product. -/
def mulIntDouble (n : Int) (d : ℚ) : ℚ :=
  roundDouble (roundDouble (n : ℚ) * d)

/-- Python `int(float)`: truncation toward zero. -/
def truncRat (q : ℚ) : Int :=
  if 0 ≤ q then ⌊q⌋ else ⌈q⌉

/-- `int(total_volume * 0.05)` (utils.py line 136) in exact IEEE binary64
semantics. -/
def est_clicks_of (total : Int) : Int :=
  truncRat (mulIntDouble total float05)

/-- `estimated_impact`: the fixed string of the no-gaps branch, or the
structured object of lines 152-157. -/
inductive Impact where
  | text (s : String)
  | obj (method : String) (total_volume_in_gaps : Int)
      (estimated_additional_clicks_per_month : Int) (confidence : String)
deriving DecidableEq, Repr

/-- One entry of `top_opportunities` (utils.py lines 142-148): exactly the
five keys of the dict literal, `position` exposed as `current_position`. -/
structure OpportunityItem where
  keyword : String
  volume : Int
  current_position : Int
  suggested_asset : String
  notes : String
deriving DecidableEq, Repr

/-- The report dict both branches of `generate_insight_no_llm` return. -/
structure Report where
  question : String
  summary : String
  top_opportunities : List OpportunityItem
  recommended_actions : List String
  estimated_impact : Impact
deriving DecidableEq, Repr

/-- utils.py line 76. -/
def noGapsSummary : String := "No gaps found based on current filters."

/-- utils.py line 79. -/
def actLoosen : String :=
  "Lower the Min Volume filter, or raise the gap threshold to broaden results."

/-- utils.py line 80. -/
def actUpload : String :=
  "Upload a SEMrush export with more keywords (Keyword Gap / Organic Research / Position Tracking)."

/-- utils.py line 82. -/
def lowEvidence : String := "low (insufficient evidence rows)"

/-- utils.py line 114. -/
def recPillar : String :=
  "Create 1–2 pillar pages for the highest-volume missed themes, then add supporting FAQ sections targeting long-tail variants."

/-- utils.py line 116. -/
def recCost : String :=
  "Build/refresh a 'Cost & Coverage' hub: IVF cost, egg freezing cost, what insurance covers, state-by-state considerations, and employer benefit explainers."

/-- utils.py line 118. -/
def recHowTo : String :=
  "Publish a 'How it works / Timeline' guide with step-by-step sections, eligibility, and what to expect—optimize for 'how/timeline' queries."

/-- utils.py line 120. -/
def recCompare : String :=
  "Create comparison pages (e.g., IVF vs surrogacy) with decision frameworks, pros/cons, and FAQ—these often win high-intent searches."

/-- utils.py line 122. -/
def recSuccess : String :=
  "Add medically-reviewed success rate content with age bands, definitions, and citations—optimize headings for 'success rate' questions."

/-- utils.py line 124. -/
def recLocal : String :=
  "If appropriate, create a location/clinic-finder support page and SEO FAQs for 'near me' intent (often requires local SEO strategy)."

/-- utils.py line 128. -/
def recTact1 : String :=
  "For each new/updated page: add a concise definition near the top, a table of contents, and 6–10 FAQ items matching question-style keywords."

/-- utils.py line 129. -/
def recTact2 : String :=
  "Add internal links from your highest-traffic pages to the new hubs using descriptive anchor text."

/-- utils.py line 130. -/
def recTact3 : String :=
  "Track success: top 10 rankings for the cluster, organic entrances to the new pages, and downstream conversion proxy (CTA clicks / lead starts)."

/-- utils.py line 147. -/
def notesFixed : String :=
  "Prioritize by volume + intent; treat this as a content brief starter."

/-- utils.py line 153. -/
def methodFixed : String :=
  "Sum(volume) * 0.05 (rough CTR capture proxy for demo)"

/-- utils.py line 156. -/
def confidenceFixed : String :=
  "low (rule-based prototype estimate)"

/-- The action list built at utils.py lines 113-131: the fixed pillar
recommendation, one fixed sentence per top theme in the source's order
(cost_coverage, how_to, comparisons, success_rates, local), then the three
fixed tactical recommendations. -/
def recActionsFor (tops : List String) : List String :=
  let recs := [recPillar]
  let recs := if tops.contains "cost_coverage" then recs ++ [recCost] else recs
  let recs := if tops.contains "how_to" then recs ++ [recHowTo] else recs
  let recs := if tops.contains "comparisons" then recs ++ [recCompare] else recs
  let recs := if tops.contains "success_rates" then recs ++ [recSuccess] else recs
  let recs := if tops.contains "local" then recs ++ [recLocal] else recs
  recs ++ [recTact1, recTact2, recTact3]

/-- The theme-to-sentence table of lines 115-124, written from the claim,
in the claimed priority order. -/
def themeRecTable : List (String × String) :=
  [("cost_coverage", recCost), ("how_to", recHowTo), ("comparisons", recCompare),
   ("success_rates", recSuccess), ("local", recLocal)]

/-- The f-string of utils.py line 140. -/
def summaryFor (count : Nat) (tops : List String) : String :=
  "Found " ++ toString count ++
    " high-opportunity keywords where current ranking is weaker than the configured threshold. Top themes: " ++
    (if tops.isEmpty then "general gaps" else String.intercalate ", " tops) ++ "."

/-- The comparison of `df.sort_values("volume", ascending=False)` at
utils.py line 110: descending by volume.  The model sorts stably; numpy's
default `kind='quicksort'` is only guaranteed to coincide with this up to
its 16-element insertion-sort cutoff or when volumes are distinct (claim
C3 records the divergence). -/
def volRel (a b : Record) : Prop :=
  b.volume ≤ a.volume

instance : DecidableRel volRel := fun a b => by
  unfold volRel; exact inferInstance

instance : IsTotal Record volRel :=
  ⟨by intro a b; unfold volRel; omega⟩

instance : IsTrans Record volRel :=
  ⟨by intro a b c; unfold volRel; omega⟩

/-- The dict literal of utils.py lines 142-148 for one top-opportunity
record: the five keys, `position` renamed to `current_position`, the
asset suggestion and the fixed note.  For the records this model feeds in
(the spec's GapSet shape, as `run_gap_analysis` emits) every key is
present, so the `r.get(..., default)` fallbacks of lines 144-145 never
fire. -/
def itemOfRecord (r : Record) : OpportunityItem :=
  { keyword := r.keyword
    volume := r.volume
    current_position := r.position
    suggested_asset := _suggest_asset_type r.keyword
    notes := notesFixed }

/-- `generate_insight_no_llm` (utils.py lines 67-158) over the spec's
GapSet record shape (the `gap_data` that `run_gap_analysis` returns, as
`app.py` wires them).  Both branches are pure and total: the empty branch
is the fixed no-gaps report, the other recomputes themes, the eight
highest-volume opportunities, the action list and the impact estimate. -/
def generate_insight_no_llm (question : String) (gap_data : List Record) : Report :=
  if gap_data.isEmpty then
    { question := question
      summary := noGapsSummary
      top_opportunities := []
      recommended_actions := [actLoosen, actUpload]
      estimated_impact := .text lowEvidence }
  else
    let keywords := gap_data.map Record.keyword
    let tops := top_themes keywords
    let topOpps := (List.insertionSort volRel gap_data).take 8
    let total_volume := (gap_data.map Record.volume).sum
    { question := question
      summary := summaryFor gap_data.length tops
      top_opportunities := topOpps.map itemOfRecord
      recommended_actions := recActionsFor tops
      estimated_impact :=
        .obj methodFixed total_volume (est_clicks_of total_volume) confidenceFixed }

/-- Rectangularity: every column has the frame's row count.  pandas
frames satisfy this by construction. -/
def DataFrame.Rect (df : DataFrame) : Prop :=
  ∀ p ∈ df.cols, p.2.length = df.nrows

instance (df : DataFrame) : Decidable df.Rect := by
  unfold DataFrame.Rect; exact inferInstance

/-- Written from the spec's resolution rule: the column a canonical field
is read from — the canonical label when present, else the first present
alias, else nothing. -/
def resolvedName (df : DataFrame) (canon : String) (alts : List String) : Option String :=
  if df.hasCol canon then some canon
  else alts.find? (fun a => df.hasCol a)

/-- Written from the spec: the source cell of row `i` for a canonical
field, `NaN` when no column resolves. -/
def resolvedCellSpec (df : DataFrame) (canon : String) (alts : List String) (i : Nat) : Cell :=
  match resolvedName df canon alts with
  | some n => df.getCell n i
  | none => .na

/-- Written from the spec: the cell list the volume column is read from —
the resolved source column, or the appended constant-0 column. -/
def volumeSourceSpec (kdf : DataFrame) : List Cell :=
  match resolvedName kdf "volume" volumeAliases with
  | some n => kdf.getCol n
  | none => List.replicate kdf.nrows (.int 0)

/-- Written from the spec: the cell list the position column is read from —
the resolved source column, or the appended constant-999 column. -/
def positionSourceSpec (kdf : DataFrame) : List Cell :=
  match resolvedName kdf "position" positionAliases with
  | some n => kdf.getCol n
  | none => List.replicate kdf.nrows (.int 999)

/-- Scenario 1 of spec §8: two keyword rows with volume and position. -/
def dfScenario : DataFrame :=
  ⟨[("keyword", [.str "ivf cost", .str "best clinic near me"]),
    ("volume", [.int 500, .int 300]),
    ("position", [.int 35, .int 999])]⟩

/-- The gap list Scenario 1 produces. -/
def gapsScenario : List Record :=
  [⟨"ivf cost", 500, 35, .str "", .str ""⟩,
   ⟨"best clinic near me", 300, 999, .str "", .str ""⟩]

/-- The frame Scenario 1 normalizes to. -/
def ndfScenario : DataFrame :=
  ⟨[("keyword", [.str "ivf cost", .str "best clinic near me"]),
    ("volume", [.int 500, .int 300]),
    ("position", [.int 35, .int 999]),
    ("url", [.str "", .str ""]),
    ("domain", [.str "", .str ""])]⟩

/-- Taking a prefix commutes with `filter` up to prefixhood. -/
theorem filter_take_isPrefix {α : Type} (p : α → Bool) (l : List α) (n : Nat) :
    (l.take n).filter p <+: l.filter p :=
  ⟨(l.drop n).filter p, by rw [← List.filter_append, List.take_append_drop]⟩

/-- Inserting an element every `p`-element is tied with puts it in front of
the `p`-class. -/
theorem orderedInsert_filter_pos {α : Type} (r : α → α → Prop) [DecidableRel r]
    (p : α → Bool) (a : α) (l : List α) (ha : p a = true)
    (hrel : ∀ b, p b = true → r a b) :
    (l.orderedInsert r a).filter p = a :: l.filter p := by
  induction l with
  | nil => simp [ha]
  | cons b l ih =>
      by_cases hr : r a b
      · simp [List.orderedInsert, if_pos hr, List.filter_cons, ha]
      · have hb : p b = false := by
          cases hpb : p b with
          | true => exact absurd (hrel b hpb) hr
          | false => rfl
        simp [List.orderedInsert, if_neg hr, List.filter_cons, hb, ih]

/-- Inserting a non-`p` element leaves the `p`-class unchanged. -/
theorem orderedInsert_filter_neg {α : Type} (r : α → α → Prop) [DecidableRel r]
    (p : α → Bool) (a : α) (l : List α) (ha : p a = false) :
    (l.orderedInsert r a).filter p = l.filter p := by
  induction l with
  | nil => simp [ha]
  | cons b l ih =>
      by_cases hr : r a b
      · simp [List.orderedInsert, if_pos hr, List.filter_cons, ha]
      · simp [List.orderedInsert, if_neg hr, List.filter_cons, ih]

/-- Stability of the stable sort, class by class: the elements of one tie
class come out in their input order. -/
theorem insertionSort_filter {α : Type} (r : α → α → Prop) [DecidableRel r]
    (p : α → Bool) (hrel : ∀ a b, p a = true → p b = true → r a b) (l : List α) :
    (List.insertionSort r l).filter p = l.filter p := by
  induction l with
  | nil => rfl
  | cons a l ih =>
      cases ha : p a with
      | true =>
          rw [List.insertionSort, orderedInsert_filter_pos r p a _ ha (fun b hb => hrel a b ha hb),
            ih, List.filter_cons, ha]
          simp
      | false =>
          rw [List.insertionSort, orderedInsert_filter_neg r p a _ ha, ih, List.filter_cons, ha]
          simp

/-- C1: for every input frame and every min_volume ≥ 0,
gap_position_threshold ≥ 1, top_n ≥ 1, every record the returned gap list
holds satisfies volume ≥ min_volume and position > gap_position_threshold,
the list has length ≤ top_n, it is sorted by volume descending then
position ascending (`gapRel`), and each record carries exactly the five
canonical fields (the `Record` projection of utils.py line 64). -/
theorem run_gap_analysis_contract (df : DataFrame) (mv th : Int) (tn : Nat)
    (l : List Record) (hmv : 0 ≤ mv) (hth : 1 ≤ th) (htn : 1 ≤ tn)
    (h : run_gap_analysis df mv th tn = some l) :
    (∀ r ∈ l, mv ≤ r.volume ∧ th < r.position) ∧
    l.length ≤ tn ∧
    List.Sorted gapRel l ∧
    ∀ r ∈ l, r = ⟨r.keyword, r.volume, r.position, r.url, r.domain⟩ := by
  rw [run_gap_analysis, Option.map_eq_some'] at h
  obtain ⟨ndf, hndf, hl⟩ := h
  subst hl
  refine ⟨?_, ?_, ?_, ?_⟩
  · intro r hr
    have hmem : r ∈ List.insertionSort gapRel (gapCandidates ndf mv th) :=
      (List.take_sublist _ _).subset hr
    have hmem2 : r ∈ gapCandidates ndf mv th := (List.mem_insertionSort _).mp hmem
    have := (List.mem_filter.mp hmem2).2
    simp only [Bool.and_eq_true, decide_eq_true_eq] at this
    exact this
  · exact List.length_take_le _ _
  · exact List.Pairwise.sublist (List.take_sublist _ _) (List.sorted_insertionSort gapRel _)
  · intro r _
    cases r
    rfl

/-- Witness for C1: Scenario 1 of the spec, min_volume 100, threshold 20,
top_n 25, with the concrete output list. -/
theorem run_gap_analysis_contract_witness :
    (∀ r ∈ gapsScenario, (100 : Int) ≤ r.volume ∧ (20 : Int) < r.position) ∧
    gapsScenario.length ≤ 25 ∧
    List.Sorted gapRel gapsScenario ∧
    ∀ r ∈ gapsScenario, r = ⟨r.keyword, r.volume, r.position, r.url, r.domain⟩ :=
  run_gap_analysis_contract dfScenario 100 20 25 gapsScenario
    (by norm_num) (by norm_num) (by norm_num) (by decide)

/-- C2: on an empty gap list `generate_insight_no_llm` returns, for any
question, the fixed no-gaps report of utils.py lines 74-83: the fixed
summary, no opportunities, exactly the two fixed remediation actions, and
the fixed low-confidence impact marker.  The branch is total — no error
path exists in the model or the source. -/
theorem generate_insight_empty (question : String) :
    generate_insight_no_llm question [] =
      { question := question
        summary := noGapsSummary
        top_opportunities := []
        recommended_actions := [actLoosen, actUpload]
        estimated_impact := .text lowEvidence } :=
  rfl

/-- C7: `_suggest_asset_type` is total — one asset string for every
keyword, the first matching rule of the fixed ordered table winning — and
its value is always one of the six fixed labels. -/
theorem suggest_asset_type_rules (kw : String) :
    _suggest_asset_type kw = firstMatchAsset kw ∧
    _suggest_asset_type kw ∈
      [assetCost, assetCompare, assetHowTo, assetSuccess, assetLocal, assetDefault] := by
  have h : _suggest_asset_type kw = firstMatchAsset kw := by
    unfold _suggest_asset_type firstMatchAsset assetRules
    cases h1 : kwMatchesTokens ["cost", "price", "coverage", "insurance"] (strLower kw) <;>
      cases h2 : kwMatchesTokens ["vs", "versus", "compare", "best"] (strLower kw) <;>
        cases h3 : kwMatchesTokens ["how", "timeline", "steps", "process"] (strLower kw) <;>
          cases h4 : kwMatchesTokens ["success", "rate", "chances", "age"] (strLower kw) <;>
            cases h5 : kwMatchesTokens ["near me", "clinic", "doctor", "center"] (strLower kw) <;>
              simp [List.find?, h1, h2, h3, h4, h5]
  refine ⟨h, ?_⟩
  rw [h]
  unfold firstMatchAsset assetRules
  cases h1 : kwMatchesTokens ["cost", "price", "coverage", "insurance"] (strLower kw) <;>
    cases h2 : kwMatchesTokens ["vs", "versus", "compare", "best"] (strLower kw) <;>
      cases h3 : kwMatchesTokens ["how", "timeline", "steps", "process"] (strLower kw) <;>
        cases h4 : kwMatchesTokens ["success", "rate", "chances", "age"] (strLower kw) <;>
          cases h5 : kwMatchesTokens ["near me", "clinic", "doctor", "center"] (strLower kw) <;>
            simp [List.find?, h1, h2, h3, h4, h5]

/-- C3 (the half that holds): the multi-key sort of utils.py line 62 is a
stable lexsort, so records of one (volume, position) tie class appear in
`run_gap_analysis`'s output in their original relative order — the output
restricted to a tie class is a prefix of the filtered candidate list. -/
theorem run_gap_analysis_stable_ties (df ndf : DataFrame) (mv th : Int) (tn : Nat)
    (l : List Record) (v pos : Int)
    (hn : _normalize_columns df = some ndf)
    (h : run_gap_analysis df mv th tn = some l) :
    l.filter (fun r => decide (r.volume = v) && decide (r.position = pos)) <+:
      (gapCandidates ndf mv th).filter
        (fun r => decide (r.volume = v) && decide (r.position = pos)) := by
  rw [run_gap_analysis, hn, Option.map_some'] at h
  have hl : l = (List.insertionSort gapRel (gapCandidates ndf mv th)).take tn :=
    (Option.some_injective _ h).symm
  subst hl
  have hstab :
      (List.insertionSort gapRel (gapCandidates ndf mv th)).filter
          (fun r => decide (r.volume = v) && decide (r.position = pos)) =
        (gapCandidates ndf mv th).filter
          (fun r => decide (r.volume = v) && decide (r.position = pos)) := by
    refine insertionSort_filter gapRel _ ?_ _
    intro a b ha hb
    simp only [Bool.and_eq_true, decide_eq_true_eq] at ha hb
    exact Or.inr ⟨by omega, by omega⟩
  calc ((List.insertionSort gapRel (gapCandidates ndf mv th)).take tn).filter
        (fun r => decide (r.volume = v) && decide (r.position = pos))
      <+: (List.insertionSort gapRel (gapCandidates ndf mv th)).filter
        (fun r => decide (r.volume = v) && decide (r.position = pos)) :=
        filter_take_isPrefix _ _ _
    _ = (gapCandidates ndf mv th).filter
        (fun r => decide (r.volume = v) && decide (r.position = pos)) := hstab

/-- Witness for the stable half of C3 at Scenario 1, tie class
(volume 500, position 35). -/
theorem run_gap_analysis_stable_ties_witness :
    gapsScenario.filter (fun r => decide (r.volume = 500) && decide (r.position = 35)) <+:
      (gapCandidates ndfScenario 100 20).filter
        (fun r => decide (r.volume = 500) && decide (r.position = 35)) :=
  run_gap_analysis_stable_ties dfScenario ndfScenario 100 20 25 gapsScenario 500 35
    (by decide) (by decide)

/-- The action list of utils.py lines 113-131 equals the claim's table
form: pillar first, then the matched theme sentences in the fixed
priority order, then the three tactical sentences. -/
theorem recActionsFor_eq (tops : List String) :
    recActionsFor tops =
      [recPillar] ++ (themeRecTable.filter (fun p => tops.contains p.1)).map Prod.snd ++
        [recTact1, recTact2, recTact3] := by
  unfold recActionsFor themeRecTable
  by_cases h1 : "cost_coverage" ∈ tops <;> by_cases h2 : "how_to" ∈ tops <;>
    by_cases h3 : "comparisons" ∈ tops <;> by_cases h4 : "success_rates" ∈ tops <;>
      by_cases h5 : "local" ∈ tops <;>
        simp [h1, h2, h3, h4, h5, List.elem_iff]

/-- C8: for a non-empty gap list the recommended actions begin with the
fixed pillar recommendation, continue with exactly one fixed sentence per
top theme present, taken in the fixed priority order (cost_coverage,
how_to, comparisons, success_rates, local), and end with the three fixed
tactical recommendations. -/
theorem recommended_actions_shape (question : String) (gaps : List Record)
    (h : gaps ≠ []) :
    (generate_insight_no_llm question gaps).recommended_actions =
      [recPillar] ++
        (themeRecTable.filter
          (fun p => (top_themes (gaps.map Record.keyword)).contains p.1)).map Prod.snd ++
        [recTact1, recTact2, recTact3] := by
  have hne : gaps.isEmpty = false := by
    cases hgd : gaps.isEmpty
    · rfl
    · exact absurd (List.isEmpty_iff.mp hgd) h
  simp only [generate_insight_no_llm, hne, Bool.false_eq_true, if_false]
  exact recActionsFor_eq _

/-- Witness for C8 at Scenario 1's gap list. -/
theorem recommended_actions_shape_witness :
    (generate_insight_no_llm "q" gapsScenario).recommended_actions =
      [recPillar] ++
        (themeRecTable.filter
          (fun p => (top_themes (gapsScenario.map Record.keyword)).contains p.1)).map Prod.snd ++
        [recTact1, recTact2, recTact3] :=
  recommended_actions_shape "q" gapsScenario (by decide)

/-- C10: every top-opportunity item of a non-empty run is built from some
input record with exactly the five keys of utils.py lines 142-148: the
record's keyword and volume, its position exposed as current_position,
the suggested asset for its keyword, and the one fixed note.  (On the
GapSet record shape every key is present, so the `r.get` defaults of
lines 144-145 cannot fire.) -/
theorem top_opportunities_shape (question : String) (gaps : List Record)
    (h : gaps ≠ []) :
    ∀ item ∈ (generate_insight_no_llm question gaps).top_opportunities,
      ∃ r ∈ gaps, item.keyword = r.keyword ∧ item.volume = r.volume ∧
        item.current_position = r.position ∧
        item.suggested_asset = _suggest_asset_type r.keyword ∧ item.notes = notesFixed := by
  have hne : gaps.isEmpty = false := by
    cases hgd : gaps.isEmpty
    · rfl
    · exact absurd (List.isEmpty_iff.mp hgd) h
  simp only [generate_insight_no_llm, hne, Bool.false_eq_true, if_false]
  intro item hitem
  obtain ⟨r, hr, rfl⟩ := List.mem_map.mp hitem
  refine ⟨r, ?_, rfl, rfl, rfl, rfl, rfl⟩
  exact (List.mem_insertionSort _).mp ((List.take_sublist _ _).subset hr)

/-- Witness for C10: the first opportunity item of Scenario 1's run. -/
theorem top_opportunities_shape_witness :
    ∃ r ∈ gapsScenario,
      (itemOfRecord ⟨"ivf cost", 500, 35, .str "", .str ""⟩).keyword = r.keyword ∧
      (itemOfRecord ⟨"ivf cost", 500, 35, .str "", .str ""⟩).volume = r.volume ∧
      (itemOfRecord ⟨"ivf cost", 500, 35, .str "", .str ""⟩).current_position = r.position ∧
      (itemOfRecord ⟨"ivf cost", 500, 35, .str "", .str ""⟩).suggested_asset =
        _suggest_asset_type r.keyword ∧
      (itemOfRecord ⟨"ivf cost", 500, 35, .str "", .str ""⟩).notes = notesFixed :=
  top_opportunities_shape "q" gapsScenario (by decide)
    (itemOfRecord ⟨"ivf cost", 500, 35, .str "", .str ""⟩) (by decide)

/-- The counter fold of utils.py lines 99-103, from any starting state:
each counter ends at its start plus the number of matching keywords. -/
theorem foldl_themeHitsStep (kws : List String) (st : List ((String × List String) × Nat)) :
    kws.foldl (fun st kw => themeHitsStep (strLower kw) st) st =
      st.map (fun p => (p.1, p.2 + kws.countP (fun kw => kwMatchesTokens p.1.2 (strLower kw)))) := by
  induction kws generalizing st with
  | nil => simp
  | cons kw kws ih =>
      rw [List.foldl_cons, ih, themeHitsStep, List.map_map]
      refine List.map_congr_left ?_
      intro p _
      by_cases hm : kwMatchesTokens p.1.2 (strLower kw) = true
      · simp only [Function.comp_apply, hm, if_pos, List.countP_cons, hm]
        simp [hm]
        omega
      · simp only [Function.comp_apply, if_neg hm, List.countP_cons]
        simp [hm]

/-- `theme_hits` computes, per theme of the fixed table, the number of
keywords matching that theme's tokens. -/
theorem theme_hits_eq (kws : List String) :
    theme_hits kws = themesList.map (fun t => (t.1, themeCount kws t.1)) := by
  rw [theme_hits, foldl_themeHitsStep, List.map_map, List.map_map]
  refine List.map_congr_left ?_
  intro t ht
  have htok : themeTokens t.1 = t.2 := by
    revert t
    decide
  simp only [Function.comp_apply, themeCount, htok]
  simp

/-- Every entry of `theme_hits` carries its theme's keyword count. -/
theorem mem_theme_hits (kws : List String) (pr : String × Nat) (h : pr ∈ theme_hits kws) :
    pr.2 = themeCount kws pr.1 := by
  rw [theme_hits_eq] at h
  obtain ⟨t, _, rfl⟩ := List.mem_map.mp h
  rfl

/-- `theme_hits` lists the themes in strictly increasing enumeration
order. -/
theorem theme_hits_pairwise_idx (kws : List String) :
    (theme_hits kws).Pairwise (fun a b => themeIdx a.1 < themeIdx b.1) := by
  rw [theme_hits_eq]
  refine List.pairwise_map.mpr ?_
  have : themesList.Pairwise (fun a b => themeIdx a.1 < themeIdx b.1) := by decide
  exact this.imp (fun h => h)

/-- Inserting below every tied element keeps a stable pairwise invariant:
relations hold forward, and backward relations certify the input order. -/
theorem orderedInsert_pairwise_stable {α : Type} (r : α → α → Prop) [DecidableRel r]
    [IsTotal α r] [IsTrans α r] (S : α → α → Prop) (x : α) (m : List α)
    (hx : ∀ b ∈ m, S x b)
    (hm : m.Pairwise (fun a b => r a b ∧ (r b a → S a b))) :
    (m.orderedInsert r x).Pairwise (fun a b => r a b ∧ (r b a → S a b)) := by
  induction m with
  | nil => simp
  | cons b m ih =>
      rw [List.orderedInsert]
      by_cases hr : r x b
      · rw [if_pos hr]
        refine List.pairwise_cons.mpr ⟨?_, hm⟩
        intro c hc
        rcases List.mem_cons.mp hc with rfl | hcm
        · exact ⟨hr, fun _ => hx c (List.mem_cons_self _ _)⟩
        · have hbc : r b c := ((List.pairwise_cons.mp hm).1 c hcm).1
          exact ⟨Trans.trans hr hbc, fun _ => hx c (List.mem_cons_of_mem _ hcm)⟩
      · rw [if_neg hr]
        obtain ⟨hb, hm'⟩ := List.pairwise_cons.mp hm
        have hx' : ∀ c ∈ m, S x c := fun c hc => hx c (List.mem_cons_of_mem _ hc)
        refine List.pairwise_cons.mpr ⟨?_, ih hx' hm'⟩
        intro c hc
        rcases (List.mem_orderedInsert r).mp hc with hcx | hcm
        · subst hcx
          exact ⟨(total_of r c b).resolve_left hr, fun hcb => absurd hcb hr⟩
        · exact hb c hcm

/-- Stability of `insertionSort`: when the input is `S`-ordered, ties of
the sort relation keep their `S`-order in the output. -/
theorem insertionSort_pairwise_stable {α : Type} (r : α → α → Prop) [DecidableRel r]
    [IsTotal α r] [IsTrans α r] (S : α → α → Prop) (l : List α) (hl : l.Pairwise S) :
    (List.insertionSort r l).Pairwise (fun a b => r a b ∧ (r b a → S a b)) := by
  induction l with
  | nil => simp
  | cons x l ih =>
      obtain ⟨hx, hl'⟩ := List.pairwise_cons.mp hl
      rw [List.insertionSort]
      refine orderedInsert_pairwise_stable r S x _ ?_ (ih hl')
      intro b hb
      exact hx b ((List.mem_insertionSort r).mp hb)

/-- C6: the tally of utils.py lines 98-103 gives every theme the count of
keywords whose lowercased text contains one of its tokens (a keyword
matching two themes counts in both), and `top_themes` is the positive
themes in count-descending order, at most three, ties kept in the fixed
enumeration order, and omitting a positive theme only for three others
with counts at least as large. -/
theorem theme_tally_and_top_themes (kws : List String) :
    theme_hits kws = themesList.map (fun t => (t.1, themeCount kws t.1)) ∧
    (top_themes kws).length ≤ 3 ∧
    (∀ t ∈ top_themes kws, 0 < themeCount kws t) ∧
    (top_themes kws).Pairwise
      (fun a b => themeCount kws b ≤ themeCount kws a ∧
        (themeCount kws a = themeCount kws b → themeIdx a < themeIdx b)) ∧
    (∀ t ∈ themesList.map Prod.fst, 0 < themeCount kws t →
      t ∈ top_themes kws ∨
        ((top_themes kws).length = 3 ∧
          ∀ s ∈ top_themes kws, themeCount kws t ≤ themeCount kws s)) := by
  have h1 := theme_hits_eq kws
  have hsortmem : ∀ pr ∈ List.insertionSort themeRel (theme_hits kws),
      pr.2 = themeCount kws pr.1 :=
    fun pr hpr => mem_theme_hits kws pr ((List.mem_insertionSort _).mp hpr)
  have hpw := insertionSort_pairwise_stable themeRel
    (fun a b => themeIdx a.1 < themeIdx b.1) (theme_hits kws) (theme_hits_pairwise_idx kws)
  have hpwfl := hpw.filter (fun p => decide (0 < p.2))
  have hpwfl' :
      ((List.insertionSort themeRel (theme_hits kws)).filter
          (fun p => decide (0 < p.2))).Pairwise
        (fun a b => themeCount kws b.1 ≤ themeCount kws a.1 ∧
          (themeCount kws a.1 = themeCount kws b.1 → themeIdx a.1 < themeIdx b.1)) := by
    refine List.Pairwise.imp_of_mem ?_ hpwfl
    intro a b ha hb hab
    have ha2 : a.2 = themeCount kws a.1 := hsortmem a (List.mem_of_mem_filter ha)
    have hb2 : b.2 = themeCount kws b.1 := hsortmem b (List.mem_of_mem_filter hb)
    unfold themeRel at hab
    refine ⟨by omega, fun he => hab.2 (by omega)⟩
  have hpwnames :
      (((List.insertionSort themeRel (theme_hits kws)).filter
          (fun p => decide (0 < p.2))).map Prod.fst).Pairwise
        (fun a b => themeCount kws b ≤ themeCount kws a ∧
          (themeCount kws a = themeCount kws b → themeIdx a < themeIdx b)) :=
    List.pairwise_map.mpr hpwfl'
  refine ⟨h1, List.length_take_le _ _, ?_, ?_, ?_⟩
  · intro t ht
    have ht' := (List.take_sublist _ _).subset ht
    obtain ⟨pr, hprfl, rfl⟩ := List.mem_map.mp ht'
    have hpos := (List.mem_filter.mp hprfl).2
    simp only [decide_eq_true_eq] at hpos
    rw [← hsortmem pr (List.mem_of_mem_filter hprfl)]
    exact hpos
  · exact hpwnames.sublist (List.take_sublist _ _)
  · intro t ht hpos
    obtain ⟨u, hu, hu1⟩ := List.mem_map.mp ht
    have hin : (t, themeCount kws t) ∈ theme_hits kws := by
      rw [h1]
      exact List.mem_map.mpr ⟨u, hu, by rw [hu1]⟩
    have hins : (t, themeCount kws t) ∈ List.insertionSort themeRel (theme_hits kws) :=
      (List.mem_insertionSort _).mpr hin
    have hfl : (t, themeCount kws t) ∈
        (List.insertionSort themeRel (theme_hits kws)).filter (fun p => decide (0 < p.2)) :=
      List.mem_filter.mpr ⟨hins, by simpa using hpos⟩
    have htall : t ∈ ((List.insertionSort themeRel (theme_hits kws)).filter
        (fun p => decide (0 < p.2))).map Prod.fst :=
      List.mem_map.mpr ⟨_, hfl, rfl⟩
    by_cases htop : t ∈ top_themes kws
    · exact Or.inl htop
    · refine Or.inr ⟨?_, ?_⟩
      · have hlen : 3 < (((List.insertionSort themeRel (theme_hits kws)).filter
            (fun p => decide (0 < p.2))).map Prod.fst).length := by
          by_contra hle
          push_neg at hle
          have : top_themes kws = ((List.insertionSort themeRel (theme_hits kws)).filter
              (fun p => decide (0 < p.2))).map Prod.fst := List.take_of_length_le hle
          rw [this] at htop
          exact htop htall
        rw [top_themes, List.length_take]
        omega
      · intro s hs
        have hdrop : t ∈ (((List.insertionSort themeRel (theme_hits kws)).filter
            (fun p => decide (0 < p.2))).map Prod.fst).drop 3 := by
          have hsplit := List.take_append_drop 3
            (((List.insertionSort themeRel (theme_hits kws)).filter
              (fun p => decide (0 < p.2))).map Prod.fst)
          rw [← hsplit] at htall
          rcases List.mem_append.mp htall with h | h
          · exact absurd h htop
          · exact h
        exact (List.Sorted.rel_of_mem_take_of_mem_drop hpwnames hs hdrop).1

/-- A frame with no column `n` has no entry labelled `n`. -/
theorem find?_eq_none_of_not_hasCol (df : DataFrame) (n : String)
    (h : df.hasCol n = false) : df.cols.find? (fun p => p.1 == n) = none := by
  refine List.find?_eq_none.mpr ?_
  intro p hp hpn
  have hmem : n ∈ df.names := by
    have : p.1 = n := by simpa using hpn
    exact this ▸ List.mem_map_of_mem Prod.fst hp
  have : df.hasCol n = true := by
    simpa [DataFrame.hasCol] using (List.elem_iff.mpr hmem)
  rw [h] at this
  exact Bool.noConfusion this

/-- `getCol` of an absent column is empty. -/
theorem getCol_of_not_hasCol (df : DataFrame) (n : String) (h : df.hasCol n = false) :
    df.getCol n = [] := by
  rw [DataFrame.getCol, find?_eq_none_of_not_hasCol df n h]

/-- Column presence is name membership. -/
theorem hasCol_iff_mem (df : DataFrame) (n : String) :
    df.hasCol n = true ↔ n ∈ df.names := by
  simpa [DataFrame.hasCol] using List.elem_iff

/-- Renaming rewrites exactly the matching labels. -/
theorem names_renameCol (df : DataFrame) (old new : String) :
    (df.renameCol old new).names = df.names.map (fun m => if m == old then new else m) := by
  simp only [DataFrame.renameCol, DataFrame.names, List.map_map]
  refine List.map_congr_left ?_
  intro p _
  by_cases h : p.1 = old
  · simp [h]
  · simp [h]

/-- Renaming does not touch a column named neither `old` nor `new`. -/
theorem getCol_renameCol_of_ne (df : DataFrame) (old new n : String)
    (h1 : n ≠ old) (h2 : n ≠ new) : (df.renameCol old new).getCol n = df.getCol n := by
  cases df with
  | mk cols =>
      simp only [DataFrame.renameCol, DataFrame.getCol]
      induction cols with
      | nil => rfl
      | cons p ps ih =>
          by_cases hp : p.1 = old
          · simp only [List.map_cons, hp, beq_self_eq_true, if_true]
            rw [List.find?_cons_of_neg _ (by simp [Ne.symm h2]),
              List.find?_cons_of_neg _ (by simp [hp, Ne.symm h1])]
            exact ih
          · simp only [List.map_cons, if_neg (by simpa using hp : ¬(p.1 == old) = true)]
            by_cases hpn : p.1 = n
            · rw [List.find?_cons_of_pos _ (by simp [hpn]),
                List.find?_cons_of_pos _ (by simp [hpn])]
            · rw [List.find?_cons_of_neg _ (by simp [hpn]),
                List.find?_cons_of_neg _ (by simp [hpn])]
              exact ih

/-- After renaming onto a fresh label, the new column is the old one. -/
theorem hasCol_mk_cons (p : String × List Cell) (ps : List (String × List Cell)) (n : String) :
    (DataFrame.mk (p :: ps)).hasCol n = ((n == p.1) || (DataFrame.mk ps).hasCol n) := by
  simp [DataFrame.hasCol, DataFrame.names, List.contains_cons]

/-- After renaming onto a fresh label, the new column is the old one. -/
theorem getCol_renameCol_new (df : DataFrame) (old new : String)
    (h2 : df.hasCol new = false) : (df.renameCol old new).getCol new = df.getCol old := by
  cases df with
  | mk cols =>
      induction cols with
      | nil => rfl
      | cons p ps ih =>
          have hsplit : ((new == p.1) || (DataFrame.mk ps).hasCol new) = false := by
            rw [← hasCol_mk_cons]
            exact h2
          have hpnew : (new == p.1) = false := by
            cases hb : new == p.1
            · rfl
            · rw [hb] at hsplit
              exact hsplit
          have h2' : (DataFrame.mk ps).hasCol new = false := by
            cases hb : (DataFrame.mk ps).hasCol new
            · rfl
            · rw [hb] at hsplit
              simp at hsplit
          have ihps := ih h2'
          simp only [DataFrame.renameCol, DataFrame.getCol] at ihps ⊢
          by_cases hp : p.1 = old
          · simp only [List.map_cons, hp, beq_self_eq_true, if_true]
            rw [List.find?_cons_of_pos _ (by simp), List.find?_cons_of_pos _ (by simp [hp])]
          · simp only [List.map_cons, if_neg (by simpa using hp : ¬(p.1 == old) = true)]
            rw [List.find?_cons_of_neg _
                (by simp only [beq_iff_eq]
                    exact fun he => (beq_eq_false_iff_ne.mp hpnew) he.symm),
              List.find?_cons_of_neg _ (by simpa using hp)]
            exact ihps

/-- Renaming keeps presence of unrelated labels. -/
theorem hasCol_renameCol_of_ne (df : DataFrame) (old new n : String)
    (h1 : n ≠ old) (h2 : n ≠ new) : (df.renameCol old new).hasCol n = df.hasCol n := by
  have hiff : n ∈ (df.renameCol old new).names ↔ n ∈ df.names := by
    rw [names_renameCol]
    constructor
    · intro h
      obtain ⟨m, hm, hmn⟩ := List.mem_map.mp h
      by_cases hmo : m = old
      · rw [if_pos (by simp [hmo])] at hmn
        exact absurd hmn.symm h2
      · rw [if_neg (by simpa using hmo)] at hmn
        exact hmn ▸ hm
    · intro h
      exact List.mem_map.mpr ⟨n, h, by simp [h1]⟩
  cases hd : df.hasCol n with
  | true => exact (hasCol_iff_mem _ n).mpr (hiff.mpr ((hasCol_iff_mem df n).mp hd))
  | false =>
      cases hr : (df.renameCol old new).hasCol n with
      | false => rfl
      | true =>
          have hcontra := (hasCol_iff_mem df n).mpr (hiff.mp ((hasCol_iff_mem _ n).mp hr))
          rw [hd] at hcontra
          exact hcontra.symm

/-- Renaming a present label makes the new label present. -/
theorem hasCol_renameCol_new (df : DataFrame) (old new : String)
    (h : df.hasCol old = true) : (df.renameCol old new).hasCol new = true := by
  refine (hasCol_iff_mem _ new).mpr ?_
  rw [names_renameCol]
  exact List.mem_map.mpr ⟨old, (hasCol_iff_mem df old).mp h, by simp⟩

/-- Appending a fresh constant column makes it readable. -/
theorem getCol_setConstCol_self (df : DataFrame) (n : String) (c : Cell)
    (h : df.hasCol n = false) :
    (df.setConstCol n c).getCol n = List.replicate df.nrows c := by
  simp only [DataFrame.setConstCol, DataFrame.getCol, List.find?_append,
    find?_eq_none_of_not_hasCol df n h, Option.none_or]
  rw [List.find?_cons_of_pos _ (by simp)]

/-- Appending a column does not change others. -/
theorem getCol_setConstCol_of_ne (df : DataFrame) (n m : String) (c : Cell)
    (h : m ≠ n) : (df.setConstCol n c).getCol m = df.getCol m := by
  simp only [DataFrame.setConstCol, DataFrame.getCol, List.find?_append]
  cases hf : df.cols.find? (fun p => p.1 == m) with
  | some p => simp
  | none =>
      simp only [Option.none_or]
      rw [List.find?_cons_of_neg _ (by simpa using fun he => h he.symm)]
      rfl

/-- Appending a column keeps presence of other labels. -/
theorem hasCol_setConstCol_of_ne (df : DataFrame) (n m : String) (c : Cell)
    (h : m ≠ n) : (df.setConstCol n c).hasCol m = df.hasCol m := by
  cases hd : df.hasCol m with
  | true =>
      refine (hasCol_iff_mem _ m).mpr ?_
      simp only [DataFrame.setConstCol, DataFrame.names, List.map_append, List.mem_append]
      exact Or.inl ((hasCol_iff_mem df m).mp hd)
  | false =>
      cases hr : (df.setConstCol n c).hasCol m with
      | false => rfl
      | true =>
          have := (hasCol_iff_mem _ m).mp hr
          simp only [DataFrame.setConstCol, DataFrame.names, List.map_append,
            List.mem_append] at this
          rcases this with hm | hm
          · rw [(hasCol_iff_mem df m).mpr hm] at hd
            exact hd
          · simp at hm
            exact absurd hm h

/-- The appended label is present. -/
theorem hasCol_setConstCol_self (df : DataFrame) (n : String) (c : Cell) :
    (df.setConstCol n c).hasCol n = true := by
  refine (hasCol_iff_mem _ n).mpr ?_
  simp [DataFrame.setConstCol, DataFrame.names]

/-- Mapping a column transforms exactly its cells. -/
theorem getCol_mapCol_self (df : DataFrame) (n : String) (f : Cell → Cell) :
    (df.mapCol n f).getCol n = (df.getCol n).map f := by
  cases df with
  | mk cols =>
      simp only [DataFrame.mapCol, DataFrame.getCol]
      induction cols with
      | nil => rfl
      | cons p ps ih =>
          by_cases hp : p.1 = n
          · rw [List.map_cons, if_pos (show (p.1 == n) = true by simpa using hp),
              List.find?_cons_of_pos _ (by simpa using hp),
              List.find?_cons_of_pos _ (by simpa using hp)]
          · rw [List.map_cons, if_neg (show ¬(p.1 == n) = true by simpa using hp),
              List.find?_cons_of_neg _ (by simpa using hp),
              List.find?_cons_of_neg _ (by simpa using hp)]
            exact ih

/-- Mapping a column leaves the others alone. -/
theorem getCol_mapCol_of_ne (df : DataFrame) (n m : String) (f : Cell → Cell)
    (h : m ≠ n) : (df.mapCol n f).getCol m = df.getCol m := by
  cases df with
  | mk cols =>
      simp only [DataFrame.mapCol, DataFrame.getCol]
      induction cols with
      | nil => rfl
      | cons p ps ih =>
          by_cases hp : p.1 = n
          · rw [List.map_cons, if_pos (show (p.1 == n) = true by simpa using hp),
              List.find?_cons_of_neg _ (by simpa using fun he : p.1 = m => h (he.symm.trans hp)),
              List.find?_cons_of_neg _ (by simpa using fun he : p.1 = m => h (he.symm.trans hp))]
            exact ih
          · rw [List.map_cons, if_neg (show ¬(p.1 == n) = true by simpa using hp)]
            by_cases hpm : p.1 = m
            · rw [List.find?_cons_of_pos _ (by simpa using hpm),
                List.find?_cons_of_pos _ (by simpa using hpm)]
            · rw [List.find?_cons_of_neg _ (by simpa using hpm),
                List.find?_cons_of_neg _ (by simpa using hpm)]
              exact ih

/-- Row counts are preserved by each frame operation used here. -/
theorem nrows_renameCol (df : DataFrame) (old new : String) :
    (df.renameCol old new).nrows = df.nrows := by
  cases df with
  | mk cols =>
      cases cols with
      | nil => rfl
      | cons p ps =>
          simp only [DataFrame.renameCol, DataFrame.nrows, List.map_cons]
          by_cases hp : p.1 = old
          · simp [hp]
          · simp [hp]

theorem nrows_mapCol (df : DataFrame) (n : String) (f : Cell → Cell) :
    (df.mapCol n f).nrows = df.nrows := by
  cases df with
  | mk cols =>
      cases cols with
      | nil => rfl
      | cons p ps =>
          simp only [DataFrame.mapCol, DataFrame.nrows, List.map_cons]
          by_cases hp : p.1 = n
          · simp [hp]
          · simp [hp]

theorem nrows_setConstCol (df : DataFrame) (n : String) (c : Cell) :
    (df.setConstCol n c).nrows = df.nrows := by
  cases df with
  | mk cols =>
      cases cols with
      | nil => simp [DataFrame.setConstCol, DataFrame.nrows]
      | cons p ps => simp [DataFrame.setConstCol, DataFrame.nrows]

theorem nrows_lowerFrame (df : DataFrame) : (lowerFrame df).nrows = df.nrows := by
  cases df with
  | mk cols =>
      cases cols with
      | nil => rfl
      | cons p ps => rfl

/-- `resolveAlias` reads the column the spec-side resolution names. -/
theorem getCol_resolveAlias_canon (df : DataFrame) (canon : String) (alts : List String) :
    (resolveAlias df canon alts).getCol canon =
      match resolvedName df canon alts with
      | some m => df.getCol m
      | none => [] := by
  rw [resolveAlias, resolvedName]
  by_cases h : df.hasCol canon = true
  · simp [h]
  · have hf : df.hasCol canon = false := by
      cases hb : df.hasCol canon
      · rfl
      · exact absurd hb h
    simp only [hf, Bool.false_eq_true, if_false]
    cases ha : alts.find? (fun a => df.hasCol a) with
    | some a => exact getCol_renameCol_new df a canon hf
    | none => exact getCol_of_not_hasCol df canon hf

/-- `resolveAlias` leaves unrelated columns untouched. -/
theorem getCol_resolveAlias_of_ne (df : DataFrame) (canon : String) (alts : List String)
    (n : String) (h1 : n ≠ canon) (h2 : n ∉ alts) :
    (resolveAlias df canon alts).getCol n = df.getCol n := by
  rw [resolveAlias]
  by_cases h : df.hasCol canon = true
  · simp [h]
  · have hf : df.hasCol canon = false := by
      cases hb : df.hasCol canon
      · rfl
      · exact absurd hb h
    simp only [hf, Bool.false_eq_true, if_false]
    cases ha : alts.find? (fun a => df.hasCol a) with
    | some a =>
        have hmem : a ∈ alts := List.mem_of_find?_eq_some ha
        exact getCol_renameCol_of_ne df a canon n (fun he => h2 (he ▸ hmem)) h1
    | none => rfl

/-- `resolveAlias` preserves presence of unrelated labels. -/
theorem hasCol_resolveAlias_of_ne (df : DataFrame) (canon : String) (alts : List String)
    (n : String) (h1 : n ≠ canon) (h2 : n ∉ alts) :
    (resolveAlias df canon alts).hasCol n = df.hasCol n := by
  rw [resolveAlias]
  by_cases h : df.hasCol canon = true
  · simp [h]
  · have hf : df.hasCol canon = false := by
      cases hb : df.hasCol canon
      · rfl
      · exact absurd hb h
    simp only [hf, Bool.false_eq_true, if_false]
    cases ha : alts.find? (fun a => df.hasCol a) with
    | some a =>
        have hmem : a ∈ alts := List.mem_of_find?_eq_some ha
        exact hasCol_renameCol_of_ne df a canon n (fun he => h2 (he ▸ hmem)) h1
    | none => rfl

theorem nrows_resolveAlias (df : DataFrame) (canon : String) (alts : List String) :
    (resolveAlias df canon alts).nrows = df.nrows := by
  rw [resolveAlias]
  by_cases h : df.hasCol canon = true
  · simp [h]
  · have hf : df.hasCol canon = false := by
      cases hb : df.hasCol canon
      · rfl
      · exact absurd hb h
    simp only [hf, Bool.false_eq_true, if_false]
    cases ha : alts.find? (fun a => df.hasCol a) with
    | some a => exact nrows_renameCol df a canon
    | none => rfl

/-- `ensureCol` reads back either the present column or the default. -/
theorem getCol_ensureCol_self (df : DataFrame) (n : String) (c : Cell) :
    (ensureCol df n c).getCol n =
      if df.hasCol n then df.getCol n else List.replicate df.nrows c := by
  rw [ensureCol]
  by_cases h : df.hasCol n = true
  · simp [h]
  · have hf : df.hasCol n = false := by
      cases hb : df.hasCol n
      · rfl
      · exact absurd hb h
    simp only [hf, Bool.false_eq_true, if_false]
    exact getCol_setConstCol_self df n c hf

theorem getCol_ensureCol_of_ne (df : DataFrame) (n m : String) (c : Cell) (h : m ≠ n) :
    (ensureCol df n c).getCol m = df.getCol m := by
  rw [ensureCol]
  by_cases hh : df.hasCol n = true
  · simp [hh]
  · simp only [hh, if_neg]
    exact getCol_setConstCol_of_ne df n m c h

theorem hasCol_ensureCol_of_ne (df : DataFrame) (n m : String) (c : Cell) (h : m ≠ n) :
    (ensureCol df n c).hasCol m = df.hasCol m := by
  rw [ensureCol]
  by_cases hh : df.hasCol n = true
  · simp [hh]
  · simp only [hh, if_neg]
    exact hasCol_setConstCol_of_ne df n m c h

theorem nrows_ensureCol (df : DataFrame) (n : String) (c : Cell) :
    (ensureCol df n c).nrows = df.nrows := by
  rw [ensureCol]
  by_cases hh : df.hasCol n = true
  · simp [hh]
  · simp only [hh, if_neg]
    exact nrows_setConstCol df n c

/-- Rectangularity survives label lowering. -/
theorem rect_lowerFrame (df : DataFrame) (h : df.Rect) : (lowerFrame df).Rect := by
  intro p hp
  obtain ⟨q, hq, rfl⟩ := List.mem_map.mp hp
  rw [nrows_lowerFrame]
  exact h q hq

/-- Rectangularity survives renaming. -/
theorem rect_renameCol (df : DataFrame) (old new : String) (h : df.Rect) :
    (df.renameCol old new).Rect := by
  intro p hp
  obtain ⟨q, hq, hqe⟩ := List.mem_map.mp hp
  rw [nrows_renameCol]
  by_cases hqo : q.1 = old
  · rw [if_pos (by simpa using hqo)] at hqe
    rw [← hqe]
    exact h q hq
  · rw [if_neg (by simpa using hqo)] at hqe
    rw [← hqe]
    exact h q hq

/-- A present column of a rectangular frame has the frame's row count. -/
theorem length_getCol_of_rect (df : DataFrame) (n : String) (hrect : df.Rect)
    (h : df.hasCol n = true) : (df.getCol n).length = df.nrows := by
  rw [DataFrame.getCol]
  cases hf : df.cols.find? (fun p => p.1 == n) with
  | some p => exact hrect p (List.mem_of_find?_eq_some hf)
  | none =>
      exfalso
      obtain ⟨m, hm, hmn⟩ := List.mem_map.mp ((hasCol_iff_mem df n).mp h)
      exact (List.find?_eq_none.mp hf m hm) (by simpa using hmn)

/-- What `keywordResolve` guarantees: a keyword column, unchanged geometry. -/
theorem keywordResolve_spec (df kdf : DataFrame) (h : keywordResolve df = some kdf) :
    kdf.hasCol "keyword" = true ∧ kdf.nrows = df.nrows ∧ (df.Rect → kdf.Rect) := by
  rw [keywordResolve] at h
  by_cases hk : df.hasCol "keyword" = true
  · rw [if_pos hk] at h
    cases h
    exact ⟨hk, rfl, fun hr => hr⟩
  · have hkf : df.hasCol "keyword" = false := by
      cases hb : df.hasCol "keyword"
      · rfl
      · exact absurd hb hk
    rw [hkf] at h
    simp only [Bool.false_eq_true, if_false] at h
    cases hn : df.names with
    | nil => rw [hn] at h; exact Option.noConfusion h
    | cons n0 rest =>
        rw [hn] at h
        have hkdf : kdf = df.renameCol n0 "keyword" := (Option.some_injective _ h).symm
        subst hkdf
        have hn0 : df.hasCol n0 = true := by
          refine (hasCol_iff_mem df n0).mpr ?_
          rw [hn]
          exact List.mem_cons_self _ _
        exact ⟨hasCol_renameCol_new df n0 "keyword" hn0,
          nrows_renameCol df n0 "keyword", rect_renameCol df n0 "keyword"⟩

/-- Reading a mapped list at an in-range index maps the read cell. -/
theorem getD_map_cell (f : Cell → Cell) (l : List Cell) (i : Nat) (h : i < l.length) :
    (l.map f).getD i .na = f (l.getD i .na) := by
  induction l generalizing i with
  | nil => exact absurd h (by simp)
  | cons c cs ih =>
      cases i with
      | zero => rfl
      | succ j =>
          simp only [List.map_cons, List.getD_cons_succ]
          exact ih j (by simpa using h)

/-- The resolved canonical label is present after `resolveAlias` exactly
when the spec-side resolution finds a source. -/
theorem hasCol_resolveAlias_canon (df : DataFrame) (canon : String) (alts : List String) :
    (resolveAlias df canon alts).hasCol canon = (resolvedName df canon alts).isSome := by
  rw [resolveAlias, resolvedName]
  by_cases h : df.hasCol canon = true
  · simp [h]
  · have hf : df.hasCol canon = false := by
      cases hb : df.hasCol canon
      · rfl
      · exact absurd hb h
    simp only [hf, Bool.false_eq_true, if_false]
    cases ha : alts.find? (fun a => df.hasCol a) with
    | some a =>
        simp only [Option.isSome_some]
        exact hasCol_renameCol_new df a canon (List.find?_some ha)
    | none => simp [hf]

/-- A resolved source label is a present column. -/
theorem hasCol_of_resolvedName (df : DataFrame) (canon : String) (alts : List String)
    (m : String) (h : resolvedName df canon alts = some m) : df.hasCol m = true := by
  rw [resolvedName] at h
  by_cases hc : df.hasCol canon = true
  · rw [if_pos hc] at h
    cases h
    exact hc
  · have hf : df.hasCol canon = false := by
      cases hb : df.hasCol canon
      · rfl
      · exact absurd hb hc
    rw [hf] at h
    simp only [Bool.false_eq_true, if_false] at h
    exact List.find?_some h

/-- Resolution only looks at column presence. -/
theorem resolvedName_congr (df df' : DataFrame) (canon : String) (alts : List String)
    (h : ∀ m ∈ canon :: alts, df.hasCol m = df'.hasCol m) :
    resolvedName df canon alts = resolvedName df' canon alts := by
  rw [resolvedName, resolvedName, h canon (List.mem_cons_self _ _)]
  have hfind : alts.find? (fun a => df.hasCol a) = alts.find? (fun a => df'.hasCol a) := by
    induction alts with
    | nil => rfl
    | cons a as ih =>
        have ha := h a (List.mem_cons_of_mem _ (List.mem_cons_self _ _))
        have has : ∀ m ∈ canon :: as, df.hasCol m = df'.hasCol m := by
          intro m hm
          rcases List.mem_cons.mp hm with rfl | hm'
          · exact h m (List.mem_cons_self _ _)
          · exact h m (List.mem_cons_of_mem _ (List.mem_cons_of_mem _ hm'))
        cases hb : df'.hasCol a with
        | true => rw [List.find?_cons_of_pos _ (ha.trans hb), List.find?_cons_of_pos _ hb]
        | false =>
            rw [List.find?_cons_of_neg _ (by simp [ha.trans hb]),
              List.find?_cons_of_neg _ (by simp [hb])]
            exact ih has
  rw [hfind]

/-- Reading a replicated list inside its range. -/
theorem getD_replicate_lt (n : Nat) (c d : Cell) (i : Nat) (h : i < n) :
    (List.replicate n c).getD i d = c := by
  induction n generalizing i with
  | zero => exact absurd h (by simp)
  | succ m ih =>
      cases i with
      | zero => rfl
      | succ j =>
          simp only [List.replicate, List.getD_cons_succ]
          exact ih j (by omega)

/-- A resolved source label is the canonical label or one of the aliases. -/
theorem resolvedName_mem (df : DataFrame) (canon : String) (alts : List String)
    (m : String) (h : resolvedName df canon alts = some m) : m = canon ∨ m ∈ alts := by
  rw [resolvedName] at h
  by_cases hc : df.hasCol canon = true
  · rw [if_pos hc] at h
    cases h
    exact Or.inl rfl
  · have hf : df.hasCol canon = false := by
      cases hb : df.hasCol canon
      · rfl
      · exact absurd hb hc
    rw [hf] at h
    simp only [Bool.false_eq_true, if_false] at h
    exact Or.inr (List.mem_of_find?_eq_some h)

/-- The normalized frame column by column: keyword stringified from the
keyword-resolved frame, volume and position coerced from the spec-side
resolved source columns (or the appended defaults), row count kept. -/
theorem normalize_getCol_spec (df0 kdf ndf : DataFrame)
    (hk : keywordResolve (lowerFrame df0) = some kdf)
    (hn : _normalize_columns df0 = some ndf) :
    ndf.getCol "keyword" = (kdf.getCol "keyword").map (fun c => .str (cellToStr c)) ∧
    ndf.getCol "volume" = (volumeSourceSpec kdf).map (fun c => .int (coerceNum 0 c)) ∧
    ndf.getCol "position" = (positionSourceSpec kdf).map (fun c => .int (coerceNum 999 c)) ∧
    ndf.nrows = kdf.nrows := by
  rw [_normalize_columns, hk, Option.map_some'] at hn
  have hndf : ndf = coerceFrame (fillDefaults kdf) := (Option.some_injective _ hn).symm
  subst hndf
  have hposNames : ∀ m ∈ ("position" :: positionAliases),
      (ensureCol (resolveAlias kdf "volume" volumeAliases) "volume" (.int 0)).hasCol m =
        kdf.hasCol m := by
    intro m hm
    rw [hasCol_ensureCol_of_ne _ _ _ _ ?hne, hasCol_resolveAlias_of_ne _ _ _ _ ?hne2 ?hne3]
    case hne => fin_cases hm <;> decide
    case hne2 => fin_cases hm <;> decide
    case hne3 => fin_cases hm <;> decide
  have hrespos :
      resolvedName (ensureCol (resolveAlias kdf "volume" volumeAliases) "volume" (.int 0))
          "position" positionAliases =
        resolvedName kdf "position" positionAliases :=
    resolvedName_congr _ _ _ _ hposNames
  have hKX : (fillDefaults kdf).getCol "keyword" = kdf.getCol "keyword" := by
    rw [fillDefaults,
      getCol_ensureCol_of_ne _ _ _ _ (by decide),
      getCol_ensureCol_of_ne _ _ _ _ (by decide),
      getCol_ensureCol_of_ne _ _ _ _ (by decide),
      getCol_resolveAlias_of_ne _ _ _ _ (by decide) (by decide),
      getCol_ensureCol_of_ne _ _ _ _ (by decide),
      getCol_resolveAlias_of_ne _ _ _ _ (by decide) (by decide)]
  have hVX : (fillDefaults kdf).getCol "volume" = volumeSourceSpec kdf := by
    rw [fillDefaults,
      getCol_ensureCol_of_ne _ _ _ _ (by decide),
      getCol_ensureCol_of_ne _ _ _ _ (by decide),
      getCol_ensureCol_of_ne _ _ _ _ (by decide),
      getCol_resolveAlias_of_ne _ _ _ _ (by decide) (by decide),
      getCol_ensureCol_self, hasCol_resolveAlias_canon, volumeSourceSpec]
    cases hr : resolvedName kdf "volume" volumeAliases with
    | some m =>
        simp only [hr, Option.isSome_some, if_true]
        rw [getCol_resolveAlias_canon, hr]
    | none =>
        simp only [hr, Option.isSome_none, Bool.false_eq_true, if_false]
        rw [nrows_resolveAlias]
  have hPX : (fillDefaults kdf).getCol "position" = positionSourceSpec kdf := by
    rw [fillDefaults,
      getCol_ensureCol_of_ne _ _ _ _ (by decide),
      getCol_ensureCol_of_ne _ _ _ _ (by decide),
      getCol_ensureCol_self, hasCol_resolveAlias_canon, hrespos, positionSourceSpec]
    cases hr : resolvedName kdf "position" positionAliases with
    | some m =>
        simp only [hr, Option.isSome_some, if_true]
        rw [getCol_resolveAlias_canon, hrespos, hr]
        dsimp only
        rcases resolvedName_mem _ _ _ _ hr with hm | hm
        · subst hm
          rw [getCol_ensureCol_of_ne _ _ _ _ (by decide),
            getCol_resolveAlias_of_ne _ _ _ _ (by decide) (by decide)]
        · rcases List.mem_cons.mp hm with rfl | hm'
          · rw [getCol_ensureCol_of_ne _ _ _ _ (by decide),
              getCol_resolveAlias_of_ne _ _ _ _ (by decide) (by decide)]
          · rcases List.mem_cons.mp hm' with rfl | hm''
            · rw [getCol_ensureCol_of_ne _ _ _ _ (by decide),
                getCol_resolveAlias_of_ne _ _ _ _ (by decide) (by decide)]
            · exact absurd hm'' (by simp)
    | none =>
        simp only [hr, Option.isSome_none, Bool.false_eq_true, if_false]
        rw [nrows_resolveAlias, nrows_ensureCol, nrows_resolveAlias]
  have hNX : (fillDefaults kdf).nrows = kdf.nrows := by
    rw [fillDefaults, nrows_ensureCol, nrows_ensureCol, nrows_ensureCol, nrows_resolveAlias,
      nrows_ensureCol, nrows_resolveAlias]
  refine ⟨?_, ?_, ?_, ?_⟩
  · rw [coerceFrame,
      getCol_mapCol_of_ne _ _ _ _ (by decide),
      getCol_mapCol_of_ne _ _ _ _ (by decide),
      getCol_mapCol_self, hKX]
  · rw [coerceFrame,
      getCol_mapCol_of_ne _ _ _ _ (by decide),
      getCol_mapCol_self,
      getCol_mapCol_of_ne _ _ _ _ (by decide), hVX]
  · rw [coerceFrame, getCol_mapCol_self,
      getCol_mapCol_of_ne _ _ _ _ (by decide),
      getCol_mapCol_of_ne _ _ _ _ (by decide), hPX]
  · rw [coerceFrame, nrows_mapCol, nrows_mapCol, nrows_mapCol, hNX]

/-- The normalized frame row by row: keyword always present as the
stringified source cell, volume and position always present as integers
coerced from the resolved source cell, falling back to 0 and 999 when
that cell is absent (`NaN`) or unparsable. -/
theorem normalize_row_spec (df0 kdf ndf : DataFrame) (hrect : df0.Rect)
    (hk : keywordResolve (lowerFrame df0) = some kdf)
    (hn : _normalize_columns df0 = some ndf) (i : Nat) (hi : i < df0.nrows) :
    ndf.nrows = df0.nrows ∧
    (ndf.recordOfRow i).keyword = cellToStr (kdf.getCell "keyword" i) ∧
    (ndf.recordOfRow i).volume = coerceNum 0 (resolvedCellSpec kdf "volume" volumeAliases i) ∧
    (ndf.recordOfRow i).position =
      coerceNum 999 (resolvedCellSpec kdf "position" positionAliases i) := by
  obtain ⟨hK, hV, hP, hN⟩ := normalize_getCol_spec df0 kdf ndf hk hn
  obtain ⟨hkw, hkn, hkr⟩ := keywordResolve_spec _ _ hk
  have hrectk : kdf.Rect := hkr (rect_lowerFrame df0 hrect)
  have hknr : kdf.nrows = df0.nrows := by rw [hkn, nrows_lowerFrame]
  have hi' : i < kdf.nrows := by omega
  refine ⟨by rw [hN, hknr], ?_, ?_, ?_⟩
  · have hlen : (kdf.getCol "keyword").length = kdf.nrows :=
      length_getCol_of_rect _ _ hrectk hkw
    show cellToStr (ndf.getCell "keyword" i) = cellToStr (kdf.getCell "keyword" i)
    rw [DataFrame.getCell, hK, getD_map_cell _ _ _ (by omega)]
    rfl
  · have hvlen : (volumeSourceSpec kdf).length = kdf.nrows := by
      rw [volumeSourceSpec]
      cases hr : resolvedName kdf "volume" volumeAliases with
      | some m =>
          exact length_getCol_of_rect _ _ hrectk (hasCol_of_resolvedName _ _ _ _ hr)
      | none => simp
    show cellAsInt (ndf.getCell "volume" i) = _
    rw [DataFrame.getCell, hV, getD_map_cell _ _ _ (by omega)]
    show coerceNum 0 ((volumeSourceSpec kdf).getD i .na) = _
    rw [volumeSourceSpec, resolvedCellSpec]
    cases hr : resolvedName kdf "volume" volumeAliases with
    | some m => rfl
    | none =>
        show coerceNum 0 ((List.replicate kdf.nrows (.int 0)).getD i .na) = coerceNum 0 .na
        rw [getD_replicate_lt _ _ _ _ hi']
        rfl
  · have hplen : (positionSourceSpec kdf).length = kdf.nrows := by
      rw [positionSourceSpec]
      cases hr : resolvedName kdf "position" positionAliases with
      | some m =>
          exact length_getCol_of_rect _ _ hrectk (hasCol_of_resolvedName _ _ _ _ hr)
      | none => simp
    show cellAsInt (ndf.getCell "position" i) = _
    rw [DataFrame.getCell, hP, getD_map_cell _ _ _ (by omega)]
    show coerceNum 999 ((positionSourceSpec kdf).getD i .na) = _
    rw [positionSourceSpec, resolvedCellSpec]
    cases hr : resolvedName kdf "position" positionAliases with
    | some m => rfl
    | none =>
        show coerceNum 999 ((List.replicate kdf.nrows (.int 999)).getD i .na) = coerceNum 999 .na
        rw [getD_replicate_lt _ _ _ _ hi']
        rfl

/-- Counterexample to C5 as stated: an input whose keyword cell is the
empty string normalizes to a record whose keyword is the empty string —
`astype(str)` never makes it non-empty. -/
theorem normalizer_keyword_empty_counterexample :
    (_normalize_columns ⟨[("keyword", [Cell.str ""])]⟩).map
      (fun ndf => ndf.toRecords.map Record.keyword) = some [""] := by
  decide

/-- C5 (amended): for every rectangular frame (with duplicate-free
normalized labels, the domain where pandas does not raise) that has at
least one column, every output row has a keyword that is present as a
string — the stringified source cell, possibly empty — and integer volume
and position fields equal to the coercion of the resolved source cell,
hence 0 respectively 999 whenever that cell is absent or unparsable. -/
theorem normalizer_fields_defaults (df0 kdf ndf : DataFrame)
    (hnodup : (lowerFrame df0).names.Nodup) (hrect : df0.Rect)
    (hk : keywordResolve (lowerFrame df0) = some kdf)
    (hn : _normalize_columns df0 = some ndf) (i : Nat) (hi : i < df0.nrows) :
    ndf.nrows = df0.nrows ∧
    (ndf.recordOfRow i).keyword = cellToStr (kdf.getCell "keyword" i) ∧
    (ndf.recordOfRow i).volume = coerceNum 0 (resolvedCellSpec kdf "volume" volumeAliases i) ∧
    (ndf.recordOfRow i).position =
      coerceNum 999 (resolvedCellSpec kdf "position" positionAliases i) :=
  normalize_row_spec df0 kdf ndf hrect hk hn i hi

/-- Witness for C5's amended theorem: a keyword column plus an unparsable
"vol" alias column; the row coerces volume to 0 and position to 999. -/
theorem normalizer_fields_defaults_witness :
    DataFrame.nrows ⟨[("keyword", [Cell.str "kw"]),
        ("volume", [Cell.int 0]), ("position", [Cell.int 999]),
        ("url", [Cell.str ""]), ("domain", [Cell.str ""])]⟩ =
      DataFrame.nrows ⟨[("keyword", [Cell.str "kw"]), ("vol", [Cell.str "x"])]⟩ ∧
    (DataFrame.recordOfRow ⟨[("keyword", [Cell.str "kw"]),
        ("volume", [Cell.int 0]), ("position", [Cell.int 999]),
        ("url", [Cell.str ""]), ("domain", [Cell.str ""])]⟩ 0).keyword =
      cellToStr (DataFrame.getCell ⟨[("keyword", [Cell.str "kw"]), ("vol", [Cell.str "x"])]⟩
        "keyword" 0) ∧
    (DataFrame.recordOfRow ⟨[("keyword", [Cell.str "kw"]),
        ("volume", [Cell.int 0]), ("position", [Cell.int 999]),
        ("url", [Cell.str ""]), ("domain", [Cell.str ""])]⟩ 0).volume =
      coerceNum 0 (resolvedCellSpec ⟨[("keyword", [Cell.str "kw"]), ("vol", [Cell.str "x"])]⟩
        "volume" volumeAliases 0) ∧
    (DataFrame.recordOfRow ⟨[("keyword", [Cell.str "kw"]),
        ("volume", [Cell.int 0]), ("position", [Cell.int 999]),
        ("url", [Cell.str ""]), ("domain", [Cell.str ""])]⟩ 0).position =
      coerceNum 999 (resolvedCellSpec ⟨[("keyword", [Cell.str "kw"]), ("vol", [Cell.str "x"])]⟩
        "position" positionAliases 0) :=
  normalizer_fields_defaults ⟨[("keyword", [Cell.str "kw"]), ("vol", [Cell.str "x"])]⟩
    ⟨[("keyword", [Cell.str "kw"]), ("vol", [Cell.str "x"])]⟩
    ⟨[("keyword", [Cell.str "kw"]),
      ("volume", [Cell.int 0]), ("position", [Cell.int 999]),
      ("url", [Cell.str ""]), ("domain", [Cell.str ""])]⟩
    (by decide) (by decide) (by decide) (by decide) 0 (by decide)

/-- C9: when no normalized label is "keyword", the first column is renamed
to keyword — even when it is itself the volume or position column or one
of their aliases.  Its data is consumed as keywords, and unless another
matching column remains, every row's volume falls back to 0 and position
to 999. -/
theorem first_column_becomes_keyword (df0 ndf : DataFrame) (n0 : String) (rest : List String)
    (hnames : (lowerFrame df0).names = n0 :: rest)
    (hnodup : (lowerFrame df0).names.Nodup)
    (hrect : df0.Rect)
    (hkw : (lowerFrame df0).hasCol "keyword" = false)
    (hvol : ∀ a ∈ ("volume" :: volumeAliases), a ∉ rest)
    (hpos : ∀ a ∈ ("position" :: positionAliases), a ∉ rest)
    (hn : _normalize_columns df0 = some ndf)
    (i : Nat) (hi : i < df0.nrows) :
    (ndf.recordOfRow i).keyword = cellToStr ((lowerFrame df0).getCell n0 i) ∧
    (ndf.recordOfRow i).volume = 0 ∧
    (ndf.recordOfRow i).position = 999 := by
  have hk : keywordResolve (lowerFrame df0) =
      some ((lowerFrame df0).renameCol n0 "keyword") := by
    rw [keywordResolve, hkw]
    simp only [Bool.false_eq_true, if_false]
    rw [hnames]
  obtain ⟨hN, hKe, hVe, hPe⟩ :=
    normalize_row_spec df0 ((lowerFrame df0).renameCol n0 "keyword") ndf hrect hk hn i hi
  have hn0rest : n0 ∉ rest := by
    rw [hnames] at hnodup
    exact (List.nodup_cons.mp hnodup).1
  have hknames : ((lowerFrame df0).renameCol n0 "keyword").names = "keyword" :: rest := by
    rw [names_renameCol, hnames, List.map_cons]
    have hhead : (if (n0 == n0) = true then "keyword" else n0) = "keyword" := by simp
    rw [hhead]
    congr 1
    have hrest : ∀ m ∈ rest, (if (m == n0) = true then "keyword" else m) = m := by
      intro m hm
      exact if_neg (by simpa using fun he : m = n0 => hn0rest (he ▸ hm))
    rw [List.map_congr_left hrest]
    exact List.map_id' rest
  have habs : ∀ alist : List String, (∀ a ∈ alist, a ≠ "keyword" ∧ a ∉ rest) →
      ∀ a ∈ alist, ((lowerFrame df0).renameCol n0 "keyword").hasCol a = false := by
    intro alist hlist a ha
    cases hb : ((lowerFrame df0).renameCol n0 "keyword").hasCol a with
    | false => rfl
    | true =>
        exfalso
        have hmem := (hasCol_iff_mem _ _).mp hb
        rw [hknames] at hmem
        rcases List.mem_cons.mp hmem with he | he
        · exact (hlist a ha).1 he
        · exact (hlist a ha).2 he
  have hvolnone :
      resolvedName ((lowerFrame df0).renameCol n0 "keyword") "volume" volumeAliases = none := by
    have hv := habs ("volume" :: volumeAliases)
      (fun a ha => ⟨by fin_cases ha <;> decide, hvol a ha⟩)
    rw [resolvedName, hv "volume" (List.mem_cons_self _ _)]
    simp only [Bool.false_eq_true, if_false]
    refine List.find?_eq_none.mpr ?_
    intro a ha
    simp [hv a (List.mem_cons_of_mem _ ha)]
  have hposnone :
      resolvedName ((lowerFrame df0).renameCol n0 "keyword") "position" positionAliases =
        none := by
    have hp := habs ("position" :: positionAliases)
      (fun a ha => ⟨by fin_cases ha <;> decide, hpos a ha⟩)
    rw [resolvedName, hp "position" (List.mem_cons_self _ _)]
    simp only [Bool.false_eq_true, if_false]
    refine List.find?_eq_none.mpr ?_
    intro a ha
    simp [hp a (List.mem_cons_of_mem _ ha)]
  refine ⟨?_, ?_, ?_⟩
  · rw [hKe, DataFrame.getCell, DataFrame.getCell,
      getCol_renameCol_new (lowerFrame df0) n0 "keyword" hkw]
  · rw [hVe, resolvedCellSpec, hvolnone]
    rfl
  · rw [hPe, resolvedCellSpec, hposnone]
    rfl

/-- Witness for C9: a single column labelled "Volume " (an alias-free
volume label after trimming and lowercasing) is consumed as the keyword
column; its 500 becomes the keyword "500", volume falls to 0, position
to 999. -/
theorem first_column_becomes_keyword_witness :
    (DataFrame.recordOfRow ⟨[("keyword", [Cell.str "500"]),
        ("volume", [Cell.int 0]), ("position", [Cell.int 999]),
        ("url", [Cell.str ""]), ("domain", [Cell.str ""])]⟩ 0).keyword =
      cellToStr ((lowerFrame ⟨[("Volume ", [Cell.int 500])]⟩).getCell "volume" 0) ∧
    (DataFrame.recordOfRow ⟨[("keyword", [Cell.str "500"]),
        ("volume", [Cell.int 0]), ("position", [Cell.int 999]),
        ("url", [Cell.str ""]), ("domain", [Cell.str ""])]⟩ 0).volume = 0 ∧
    (DataFrame.recordOfRow ⟨[("keyword", [Cell.str "500"]),
        ("volume", [Cell.int 0]), ("position", [Cell.int 999]),
        ("url", [Cell.str ""]), ("domain", [Cell.str ""])]⟩ 0).position = 999 :=
  first_column_becomes_keyword ⟨[("Volume ", [Cell.int 500])]⟩
    ⟨[("keyword", [Cell.str "500"]),
      ("volume", [Cell.int 0]), ("position", [Cell.int 999]),
      ("url", [Cell.str ""]), ("domain", [Cell.str ""])]⟩
    "volume" [] (by decide) (by decide) (by decide) (by decide)
    (by decide) (by decide) (by decide) 0 (by decide)

/-- Half-to-even rounding moves a value by at most a half. -/
theorem le_roundHE (x : ℚ) : x - 1 / 2 ≤ (roundHE x : ℚ) := by
  simp only [roundHE]
  have h1 : (⌊x⌋ : ℚ) ≤ x := Int.floor_le x
  have h2 : x < ⌊x⌋ + 1 := Int.lt_floor_add_one x
  split_ifs <;> push_cast <;> linarith

theorem roundHE_le (x : ℚ) : (roundHE x : ℚ) ≤ x + 1 / 2 := by
  simp only [roundHE]
  have h1 : (⌊x⌋ : ℚ) ≤ x := Int.floor_le x
  have h2 : x < ⌊x⌋ + 1 := Int.lt_floor_add_one x
  split_ifs <;> push_cast <;> linarith

/-- An integer plus less than a half rounds to the integer. -/
theorem roundHE_intCast_add (M : ℤ) (γ : ℚ) (h0 : 0 ≤ γ) (h1 : γ < 1 / 2) :
    roundHE ((M : ℚ) + γ) = M := by
  have hf : ⌊(M : ℚ) + γ⌋ = M := by
    rw [Int.floor_eq_iff]
    constructor
    · linarith
    · push_cast
      linarith
  simp only [roundHE, hf]
  rw [if_pos (by push_cast; linarith)]

/-- Integers round to themselves. -/
theorem roundHE_intCast (M : ℤ) : roundHE (M : ℚ) = M := by
  simpa using roundHE_intCast_add M 0 le_rfl (by norm_num)

/-- The scaled value reaches the significand range when enough fuel
could reach it. -/
theorem eUpAux_ge : ∀ (fuel : Nat) (q : ℚ), 2 ^ 52 ≤ q * 2 ^ fuel →
    2 ^ 52 ≤ q * 2 ^ eUpAux fuel q := by
  intro fuel
  induction fuel with
  | zero =>
      intro q h
      simpa [eUpAux] using h
  | succ n ih =>
      intro q h
      by_cases hq : (2 : ℚ) ^ 52 ≤ q
      · simpa [eUpAux, hq] using hq
      · rw [eUpAux, if_neg hq]
        have h2 : 2 ^ 52 ≤ 2 * q * 2 ^ n := by
          have : q * 2 ^ (n + 1) = 2 * q * 2 ^ n := by ring
          linarith [this ▸ h]
        have := ih (2 * q) h2
        calc (2 : ℚ) ^ 52 ≤ 2 * q * 2 ^ eUpAux n (2 * q) := this
          _ = q * 2 ^ (eUpAux n (2 * q) + 1) := by ring

/-- The scaled value stays below the top of the significand range. -/
theorem eUpAux_lt : ∀ (fuel : Nat) (q : ℚ), q < 2 ^ 53 →
    q * 2 ^ eUpAux fuel q < 2 ^ 53 := by
  intro fuel
  induction fuel with
  | zero =>
      intro q h
      simpa [eUpAux] using h
  | succ n ih =>
      intro q h
      by_cases hq : (2 : ℚ) ^ 52 ≤ q
      · simpa [eUpAux, hq] using h
      · rw [eUpAux, if_neg hq]
        have h2 : 2 * q < 2 ^ 53 := by
          have : q < 2 ^ 52 := lt_of_not_le hq
          nlinarith [this]
        have := ih (2 * q) h2
        calc q * 2 ^ (eUpAux n (2 * q) + 1) = 2 * q * 2 ^ eUpAux n (2 * q) := by ring
          _ < 2 ^ 53 := this

/-- Relative error of the positive rounding: at most half an ulp, hence
at most `q / 2^53`, for subcritical arguments reachable by the fuel. -/
theorem roundPosDouble_bounds (q : ℚ) (h200 : 2 ^ 52 ≤ q * 2 ^ 200) (h52 : q < 2 ^ 52) :
    q - q / 2 ^ 53 ≤ roundPosDouble q ∧ roundPosDouble q ≤ q + q / 2 ^ 53 := by
  rw [roundPosDouble, if_pos h52]
  have hge : (2 : ℚ) ^ 52 ≤ q * 2 ^ eUp q := eUpAux_ge 200 q h200
  have hpe : (0 : ℚ) < 2 ^ eUp q := by positivity
  have hhalf : (1 : ℚ) / 2 ≤ q * 2 ^ eUp q / 2 ^ 53 := by linarith
  have hR1 : q * 2 ^ eUp q - 1 / 2 ≤ (roundHE (q * 2 ^ eUp q) : ℚ) :=
    le_roundHE (q * 2 ^ eUp q)
  have hR2 : (roundHE (q * 2 ^ eUp q) : ℚ) ≤ q * 2 ^ eUp q + 1 / 2 :=
    roundHE_le (q * 2 ^ eUp q)
  constructor
  · rw [le_div_iff hpe]
    calc (q - q / 2 ^ 53) * 2 ^ eUp q = q * 2 ^ eUp q - q * 2 ^ eUp q / 2 ^ 53 := by ring
      _ ≤ q * 2 ^ eUp q - 1 / 2 := by linarith
      _ ≤ (roundHE (q * 2 ^ eUp q) : ℚ) := hR1
  · rw [div_le_iff hpe]
    calc (roundHE (q * 2 ^ eUp q) : ℚ) ≤ q * 2 ^ eUp q + 1 / 2 := hR2
      _ ≤ q * 2 ^ eUp q + q * 2 ^ eUp q / 2 ^ 53 := by linarith
      _ = (q + q / 2 ^ 53) * 2 ^ eUp q := by ring

/-- Integers below `2^53` are exactly representable: int-to-double
conversion is the identity there. -/
theorem roundDouble_intCast (T : Int) (h0 : 0 ≤ T) (h : (T : ℚ) < 2 ^ 53) :
    roundDouble (T : ℚ) = (T : ℚ) := by
  rcases eq_or_lt_of_le h0 with rfl | hpos
  · simp [roundDouble]
  · have hq0 : (0 : ℚ) < (T : ℚ) := by exact_mod_cast hpos
    rw [roundDouble, if_neg (by positivity), if_pos hq0]
    by_cases h52 : (T : ℚ) < 2 ^ 52
    · rw [roundPosDouble, if_pos h52]
      have hcast : (T : ℚ) * 2 ^ eUp (T : ℚ) = ((T * 2 ^ eUp (T : ℚ) : Int) : ℚ) := by
        push_cast
        ring
      rw [hcast, roundHE_intCast]
      push_cast
      have hpe : (0 : ℚ) < 2 ^ eUp (T : ℚ) := by positivity
      field_simp
    · rw [roundPosDouble, if_neg h52]
      have he : eDown (T : ℚ) = 0 := by
        rw [eDown, show (200 : Nat) = 199 + 1 from rfl, eDownAux, if_pos h]
      rw [he]
      simp only [pow_zero, div_one, mul_one]
      rw [roundHE_intCast]

/-- Truncation toward zero of a cast integer. -/
theorem truncRat_intCast (n : Int) : truncRat (n : ℚ) = n := by
  rw [truncRat]
  by_cases h : (0 : ℚ) ≤ (n : ℚ)
  · rw [if_pos h, Int.floor_intCast]
  · rw [if_neg h, Int.ceil_intCast]

/-- Truncation of a nonnegative value is the floor. -/
theorem truncRat_eq_floor (q : ℚ) (h : 0 ≤ q) : truncRat q = ⌊q⌋ := by
  rw [truncRat, if_pos h]

/-- The double nearest `0.05`, in closed form. -/
theorem float05_eq : float05 = (1 + (1 : ℚ) / 2 ^ 54) / 20 := by
  rw [float05]
  norm_num

/-- The exact product of an integer double and the `0.05` double. -/
theorem float05_mul (T : Int) :
    (T : ℚ) * float05 = ((T : ℚ) + (T : ℚ) / 2 ^ 54) / 20 := by
  rw [float05_eq]
  ring

/-- A multiple of 20 times the `0.05` double rounds exactly: the scaled
significand is an integer plus less than a half. -/
theorem roundDouble_mul_float05_mul20 (k : Int) (hk : 0 < k) (hkb : (k : ℚ) ≤ 2 ^ 46) :
    roundDouble (((20 * k : Int) : ℚ) * float05) = (k : ℚ) := by
  have hk0 : (0 : ℚ) < (k : ℚ) := by exact_mod_cast hk
  have hq : ((20 * k : Int) : ℚ) * float05 = (k : ℚ) + (k : ℚ) / 2 ^ 54 := by
    rw [float05_mul]
    push_cast
    ring
  set q := ((20 * k : Int) : ℚ) * float05 with hqdef
  have h0q : 0 < q := by
    rw [hq]
    positivity
  have hdivk : (k : ℚ) / 2 ^ 54 ≤ (k : ℚ) := div_le_self hk0.le (by norm_num)
  have hq52 : q < 2 ^ 52 := by
    have hc : (2 : ℚ) ^ 46 + 2 ^ 46 < 2 ^ 52 := by norm_num
    rw [hq]
    linarith
  have h200 : 2 ^ 52 ≤ q * 2 ^ 200 := by
    have hq1 : (1 : ℚ) ≤ q := by
      have hk1 : (1 : ℚ) ≤ (k : ℚ) := by exact_mod_cast hk
      have : (0 : ℚ) ≤ (k : ℚ) / 2 ^ 54 := by positivity
      rw [hq]
      linarith
    calc (2 : ℚ) ^ 52 ≤ 1 * 2 ^ 200 := by norm_num
      _ ≤ q * 2 ^ 200 := mul_le_mul_of_nonneg_right hq1 (by positivity)
  rw [roundDouble, if_neg (ne_of_gt h0q), if_pos h0q, roundPosDouble, if_pos hq52]
  have hlt : q * 2 ^ eUp q < 2 ^ 53 := eUpAux_lt 200 q (by linarith)
  have hM : ((k * 2 ^ eUp q : Int) : ℚ) = (k : ℚ) * 2 ^ eUp q := by
    push_cast
    ring
  have hqe : q * 2 ^ eUp q = ((k * 2 ^ eUp q : Int) : ℚ) + (k : ℚ) * 2 ^ eUp q / 2 ^ 54 := by
    rw [hM, hq]
    ring
  have hγ0 : 0 ≤ (k : ℚ) * 2 ^ eUp q / 2 ^ 54 := by positivity
  have hγhalf : (k : ℚ) * 2 ^ eUp q / 2 ^ 54 < 1 / 2 := by
    have hkq : (k : ℚ) * 2 ^ eUp q ≤ q * 2 ^ eUp q := by
      have hkle : (k : ℚ) ≤ q := by
        have : (0 : ℚ) ≤ (k : ℚ) / 2 ^ 54 := by positivity
        rw [hq]
        linarith
      exact mul_le_mul_of_nonneg_right hkle (by positivity)
    have : (k : ℚ) * 2 ^ eUp q < 2 ^ 53 := lt_of_le_of_lt hkq hlt
    linarith
  rw [hqe, roundHE_intCast_add _ _ hγ0 hγhalf, hM, mul_div_assoc,
    div_self (by positivity : ((2 : ℚ) ^ eUp q) ≠ 0), mul_one]

/-- `int(total * 0.05)` computes the floor of five percent for every
total up to `2^50`: the double rounding cannot cross an integer
boundary there. -/
theorem est_clicks_floor (T : Int) (h0 : 0 ≤ T) (hb : T ≤ 2 ^ 50) :
    est_clicks_of T = ⌊(T : ℚ) * 5 / 100⌋ := by
  rcases eq_or_lt_of_le h0 with rfl | hpos
  · have h1 : roundDouble ((0 : Int) : ℚ) = 0 := by simp [roundDouble]
    rw [est_clicks_of, mulIntDouble, h1, zero_mul]
    have h2 : roundDouble 0 = 0 := by simp [roundDouble]
    rw [h2, truncRat_eq_floor _ le_rfl]
    norm_num
  · have hT53 : (T : ℚ) < 2 ^ 53 := by
      have : (T : ℚ) ≤ 2 ^ 50 := by exact_mod_cast hb
      have hc : (2 : ℚ) ^ 50 < 2 ^ 53 := by norm_num
      linarith
    rw [est_clicks_of, mulIntDouble, roundDouble_intCast T h0 hT53]
    have hd : T = 20 * (T / 20) + T % 20 ∧ 0 ≤ T % 20 ∧ T % 20 < 20 := by omega
    obtain ⟨hdec, hjl, hjh⟩ := hd
    set k := T / 20 with hkdef
    set j := T % 20 with hjdef
    have hk0 : 0 ≤ k := by omega
    have hk46 : (k : ℚ) ≤ 2 ^ 46 := by
      have : k ≤ 2 ^ 46 := by omega
      exact_mod_cast this
    have hTcast : (T : ℚ) = 20 * (k : ℚ) + (j : ℚ) := by exact_mod_cast hdec
    by_cases hj : j = 0
    · have hkpos : 0 < k := by omega
      have hTk : T = 20 * k := by omega
      have hfloor : ⌊(T : ℚ) * 5 / 100⌋ = k := by
        have he : (T : ℚ) * 5 / 100 = (k : ℚ) := by
          rw [hTcast, hj]
          push_cast
          ring
        rw [he, Int.floor_intCast]
      have hTQ : (T : ℚ) = ((20 * k : Int) : ℚ) := by exact_mod_cast congrArg Int.cast hTk
      rw [hfloor, hTQ, roundDouble_mul_float05_mul20 k hkpos hk46, truncRat_intCast]
    · have hj1 : 1 ≤ j := by omega
      have hjq1 : (1 : ℚ) ≤ (j : ℚ) := by exact_mod_cast hj1
      have hjq19 : (j : ℚ) ≤ 19 := by exact_mod_cast (by omega : j ≤ 19)
      have hTb : (T : ℚ) ≤ 2 ^ 50 := by exact_mod_cast hb
      have hT0 : (0 : ℚ) < (T : ℚ) := by exact_mod_cast hpos
      have hk0q : (0 : ℚ) ≤ (k : ℚ) := by exact_mod_cast hk0
      set q := (T : ℚ) * float05 with hqdef
      have hq2 : q = (k : ℚ) + (j : ℚ) / 20 + (T : ℚ) / 2 ^ 54 / 20 := by
        rw [hqdef, float05_mul, hTcast]
        ring
      have htail0 : (0 : ℚ) ≤ (T : ℚ) / 2 ^ 54 / 20 := by positivity
      have htail : (T : ℚ) / 2 ^ 54 / 20 ≤ 1 / 320 := by
        have h1 : (T : ℚ) / 2 ^ 54 ≤ 2 ^ 50 / 2 ^ 54 := by linarith
        have h2 : ((2 : ℚ) ^ 50 / 2 ^ 54) / 20 = 1 / 320 := by norm_num
        linarith
      have hqlow : (k : ℚ) + 1 / 20 ≤ q := by
        rw [hq2]
        linarith
      have hqhigh : q ≤ (k : ℚ) + 19 / 20 + 1 / 320 := by
        rw [hq2]
        linarith
      have h0q : 0 < q := by linarith
      have hq52 : q < 2 ^ 52 := by
        have hc : (2 : ℚ) ^ 46 + 19 / 20 + 1 / 320 < 2 ^ 52 := by norm_num
        linarith
      have h200 : 2 ^ 52 ≤ q * 2 ^ 200 := by
        have h20q : (1 : ℚ) / 20 ≤ q := by linarith
        calc (2 : ℚ) ^ 52 ≤ 1 / 20 * 2 ^ 200 := by norm_num
          _ ≤ q * 2 ^ 200 := mul_le_mul_of_nonneg_right h20q (by positivity)
      obtain ⟨hrdl, hrdh⟩ := roundPosDouble_bounds q h200 hq52
      have hq53 : q / 2 ^ 53 ≤ 1 / 64 := by
        have hq47 : q ≤ 2 ^ 47 := by
          have hc : (2 : ℚ) ^ 46 + 19 / 20 + 1 / 320 ≤ 2 ^ 47 := by norm_num
          linarith
        have hc2 : ((2 : ℚ) ^ 47) / 2 ^ 53 = 1 / 64 := by norm_num
        linarith
      have hrd : roundDouble q = roundPosDouble q := by
        rw [roundDouble, if_neg (ne_of_gt h0q), if_pos h0q]
      have hfloorq : ⌊roundPosDouble q⌋ = k := by
        rw [Int.floor_eq_iff]
        constructor
        · linarith
        · push_cast
          linarith
      have hrd0 : 0 ≤ roundPosDouble q := by linarith
      rw [hrd, truncRat_eq_floor _ hrd0, hfloorq]
      have he : (T : ℚ) * 5 / 100 = (k : ℚ) + (j : ℚ) / 20 := by
        rw [hTcast]
        ring
      rw [he]
      symm
      rw [Int.floor_eq_iff]
      constructor
      · linarith
      · push_cast
        linarith

/-- CPython rounds `18014398509481979` (2^54 - 5) to the double
`2^54 - 4`: the tie at the halved significand goes to the even mantissa. -/
theorem roundDouble_bigT :
    roundDouble (18014398509481979 : ℚ) = 18014398509481980 := by
  rw [roundDouble, if_neg (by norm_num), if_pos (by norm_num), roundPosDouble,
    if_neg (by norm_num)]
  have he : eDown (18014398509481979 : ℚ) = 1 := by
    rw [eDown, show (200 : Nat) = 199 + 1 from rfl, eDownAux, if_neg (by norm_num),
      show (199 : Nat) = 198 + 1 from rfl, eDownAux, if_pos (by norm_num)]
  rw [he]
  have hdiv : (18014398509481979 : ℚ) / 2 ^ 1 = 18014398509481979 / 2 := by norm_num
  rw [hdiv]
  have hf : ⌊(18014398509481979 : ℚ) / 2⌋ = 9007199254740989 := by
    rw [Int.floor_eq_iff]
    constructor
    · norm_num
    · norm_num
  simp only [roundHE, hf]
  rw [if_neg (by push_cast; norm_num), if_neg (by push_cast; norm_num),
    if_neg (by norm_num)]
  norm_num

/-- The IEEE product of the double `2^54 - 4` with the `0.05` double
rounds to the integer `900719925474099`. -/
theorem roundDouble_bigQ :
    roundDouble ((18014398509481980 : ℚ) * float05) = 900719925474099 := by
  have hq : (18014398509481980 : ℚ) * float05 =
      16225927682921333636998024606515 / 18014398509481984 := by
    rw [float05]
    norm_num
  rw [hq, roundDouble, if_neg (by norm_num), if_pos (by norm_num), roundPosDouble,
    if_pos (by norm_num)]
  have he : eUp ((16225927682921333636998024606515 : ℚ) / 18014398509481984) = 3 := by
    rw [eUp, show (200 : Nat) = 199 + 1 from rfl, eUpAux, if_neg (by norm_num),
      show (199 : Nat) = 198 + 1 from rfl, eUpAux, if_neg (by norm_num),
      show (198 : Nat) = 197 + 1 from rfl, eUpAux, if_neg (by norm_num),
      show (197 : Nat) = 196 + 1 from rfl, eUpAux, if_pos (by norm_num)]
  rw [he]
  have hm : (16225927682921333636998024606515 : ℚ) / 18014398509481984 * 2 ^ 3 =
      16225927682921333636998024606515 / 2251799813685248 := by norm_num
  rw [hm]
  have hf : ⌊(16225927682921333636998024606515 : ℚ) / 2251799813685248⌋ =
      7205759403792792 := by
    rw [Int.floor_eq_iff]
    constructor
    · norm_num
    · norm_num
  simp only [roundHE, hf]
  rw [if_pos (by push_cast; norm_num)]
  norm_num

/-- `int(18014398509481979 * 0.05)` in exact double semantics. -/
theorem est_clicks_big :
    est_clicks_of 18014398509481979 = 900719925474099 := by
  rw [est_clicks_of, mulIntDouble,
    show ((18014398509481979 : Int) : ℚ) = (18014398509481979 : ℚ) by norm_num,
    roundDouble_bigT, roundDouble_bigQ, truncRat_eq_floor _ (by norm_num),
    show (900719925474099 : ℚ) = ((900719925474099 : Int) : ℚ) by norm_num,
    Int.floor_intCast]

/-- Counterexample to C4 as stated: at total gap volume 2^54 - 5 the code
(`int(total * 0.05)` in binary64) reports 900719925474099 clicks, one
more than the floor of five percent, which is 900719925474098. -/
theorem impact_estimate_counterexample :
    (generate_insight_no_llm "q"
        [⟨"kw", 18014398509481979, 25, .str "", .str ""⟩]).estimated_impact =
      .obj methodFixed 18014398509481979 900719925474099 confidenceFixed ∧
    ⌊((18014398509481979 : Int) : ℚ) * 5 / 100⌋ = 900719925474098 := by
  constructor
  · have hshape : (generate_insight_no_llm "q"
        [⟨"kw", 18014398509481979, 25, .str "", .str ""⟩]).estimated_impact =
        .obj methodFixed 18014398509481979 (est_clicks_of 18014398509481979)
          confidenceFixed := by
      simp [generate_insight_no_llm]
    rw [hshape, est_clicks_big]
  · rw [Int.floor_eq_iff]
    constructor
    · push_cast
      norm_num
    · push_cast
      norm_num

/-- C4 (amended): for every non-empty gap list with nonnegative volumes
totalling at most 2^50, the impact object holds the exact total and a
click estimate equal to the floor of five percent of it (Scenario 3's
total 1000 gives 50).  Beyond that bound the double arithmetic of line
136 can exceed the floor (see the counterexample at 2^54 - 5). -/
theorem impact_estimate (question : String) (gaps : List Record) (h : gaps ≠ [])
    (hpos : ∀ r ∈ gaps, 0 ≤ r.volume)
    (hbound : (gaps.map Record.volume).sum ≤ 2 ^ 50) :
    (generate_insight_no_llm question gaps).estimated_impact =
      .obj methodFixed ((gaps.map Record.volume).sum)
        ⌊(((gaps.map Record.volume).sum : Int) : ℚ) * 5 / 100⌋ confidenceFixed := by
  have hne : gaps.isEmpty = false := by
    cases hgd : gaps.isEmpty
    · rfl
    · exact absurd (List.isEmpty_iff.mp hgd) h
  have h0 : 0 ≤ (gaps.map Record.volume).sum := by
    refine List.sum_nonneg ?_
    intro x hx
    obtain ⟨r, hr, rfl⟩ := List.mem_map.mp hx
    exact hpos r hr
  simp only [generate_insight_no_llm, hne, Bool.false_eq_true, if_false]
  rw [est_clicks_floor _ h0 hbound]

/-- Witness for C4's amended theorem: one gap record of volume 1000. -/
theorem impact_estimate_witness :
    (generate_insight_no_llm "q"
        [⟨"ivf", 1000, 30, Cell.str "", Cell.str ""⟩]).estimated_impact =
      .obj methodFixed
        (([⟨"ivf", 1000, 30, Cell.str "", Cell.str ""⟩] : List Record).map Record.volume).sum
        ⌊(((([⟨"ivf", 1000, 30, Cell.str "", Cell.str ""⟩] : List Record).map
            Record.volume).sum : Int) : ℚ) * 5 / 100⌋ confidenceFixed :=
  impact_estimate "q" [⟨"ivf", 1000, 30, Cell.str "", Cell.str ""⟩]
    (by decide) (by decide) (by decide)
